import Mathlib

/-!
Verification of the CSV bulk-ingestion pipeline and the hierarchical
administration/track/station bootstrap of the maxfame_test repository.

Ingestion is modelled from `src/routes/examiner.ts` (the `upload-csv`
handler) together with the Mongoose schema in `src/models/examiner.ts`.
The bootstrap is modelled from `src/scripts/setup.ts`
(`createAdministrations`, `clearExistingData`) and the fixed fan-out
setup script (`setupStationsAndTracks`), together with the schemas in
`src/models/administration.ts`, `src/models/track.ts`,
`src/models/station.ts`.

Storage semantics follow the documented defaults of the Mongoose ODM the
code uses:
* a `required` String path rejects both a missing value and the empty
  string, and validation runs on `Model.create` but NOT on
  `findByIdAndUpdate` (update validators are off by default);
* keys whose value is `undefined` are dropped from query filters
  (`findOne({ examinerId: undefined })` behaves like `findOne({})` and
  returns the first document) and from update documents;
* update paths that are not declared in the schema are stripped by
  strict mode (enabled by default), so a `$set` on such a path writes
  nothing.
-/

/-! ## Ingestion: data model (examiner.ts, models/examiner.ts) -/

/-- One parsed CSV row, as built by the upload handler:
`{ examinerId: record.ExaminerID?.toString(), name: record.Name }`.
`none` models a JavaScript `undefined` field (the column was absent from
the CSV header); a present-but-empty cell is `some ""`. -/
structure CSVRecord where
  examinerId : Option String
  name : Option String
deriving Repr, DecidableEq

/-- A stored examiner document.  `_id` is the storage-assigned identity
(MongoDB ObjectId, modelled as a Nat drawn from a counter); `examinerId`
and `name` are the two schema paths of `ExaminerSchema`. -/
structure StoredExaminer where
  _id : Nat
  examinerId : String
  name : String
deriving Repr, DecidableEq

/-- The examiner collection: stored documents in insertion order plus the
counter supplying fresh `_id`s. -/
structure ExaminerStore where
  docs : List StoredExaminer
  nextId : Nat
deriving Repr, DecidableEq

/-- `Examiner.findOne({ examinerId: key })`.  When `key` is `undefined`
Mongoose drops the key from the filter, so the query matches the first
stored document; otherwise it returns the first document whose
`examinerId` equals the key. -/
def findOneByExaminerId (s : ExaminerStore) (key : Option String) :
    Option StoredExaminer :=
  match key with
  | none => s.docs.head?
  | some k => s.docs.find? (fun d => d.examinerId == k)

/-- Validation message for a missing/empty `examinerId` (the path is
`required` in `ExaminerSchema`). -/
def examinerIdRequiredMsg : String :=
  "Examiner validation failed: examinerId: Path examinerId is required."

/-- Validation message for a missing/empty `name` (the path is `required`
in `ExaminerSchema`). -/
def nameRequiredMsg : String :=
  "Examiner validation failed: name: Path name is required."

/-- Error raised by the unique index on `examinerId`. -/
def duplicateKeyMsg : String := "E11000 duplicate key error"

/-- `Examiner.create(record)`: validates the two `required` paths (a
`required` String path fails on a missing value and on the empty string),
then inserts subject to the unique index on `examinerId`. -/
def createExaminer (s : ExaminerStore) (r : CSVRecord) :
    Except String ExaminerStore :=
  match r.examinerId with
  | none => .error examinerIdRequiredMsg
  | some k =>
    if k = "" then .error examinerIdRequiredMsg
    else
      match r.name with
      | none => .error nameRequiredMsg
      | some n =>
        if n = "" then .error nameRequiredMsg
        else if s.docs.any (fun d => d.examinerId == k) then
          .error duplicateKeyMsg
        else
          .ok { docs := s.docs ++ [{ _id := s.nextId, examinerId := k, name := n }],
                nextId := s.nextId + 1 }

/-- The effect of `$set`-ting the parsed record onto a stored document:
`undefined` fields are dropped from the update, present fields overwrite.
(`findByIdAndUpdate` does not run validators by default, so no
`required` check happens here.) -/
def applyRecordPatch (r : CSVRecord) (d : StoredExaminer) : StoredExaminer :=
  { d with
    examinerId := r.examinerId.getD d.examinerId
    name := r.name.getD d.name }

/-- `Examiner.findByIdAndUpdate(targetId, record)`: update the document
with the given storage id in place. -/
def updateExaminerById (s : ExaminerStore) (targetId : Nat) (r : CSVRecord) :
    ExaminerStore :=
  { s with docs := s.docs.map (fun d => if d._id == targetId then applyRecordPatch r d else d) }

/-- Whether a successful row took the insert path (`Examiner.create`) or
the update path (`Examiner.findByIdAndUpdate`). -/
inductive RowPath where
  | inserted
  | updated
deriving Repr, DecidableEq

/-- The body of the per-record loop in the upload handler: look up by
natural key; update if found, otherwise create; an error is caught and
reported, leaving the store unchanged. -/
def reconcileRow (s : ExaminerStore) (r : CSVRecord) :
    ExaminerStore × Except String RowPath :=
  match findOneByExaminerId s r.examinerId with
  | some existing => (updateExaminerById s existing._id r, .ok .updated)
  | none =>
    match createExaminer s r with
    | .ok s' => (s', .ok .inserted)
    | .error msg => (s, .error msg)

/-- The `results` object accumulated by the loop: `success` holds the
records whose reconcile succeeded, `failed` pairs each failing record
with the caught error message, both in input order. -/
structure UploadResult where
  success : List CSVRecord
  failed : List (CSVRecord × String)
deriving Repr, DecidableEq

/-- The sequential `for (const record of records)` loop of the handler:
reconcile each record against the evolving store and sort it into the
success or failure list, preserving input order. -/
def processRecords (s : ExaminerStore) : List CSVRecord → ExaminerStore × UploadResult
  | [] => (s, { success := [], failed := [] })
  | r :: rest =>
    let step := reconcileRow s r
    let next := processRecords step.1 rest
    match step.2 with
    | .ok _ => (next.1, { success := r :: next.2.success, failed := next.2.failed })
    | .error m => (next.1, { success := next.2.success, failed := (r, m) :: next.2.failed })

/-- The same loop, recording for every row its full outcome (insert path,
update path, or error message) in input order.  This is a proof
instrument for stating per-row facts; `processRecords` above is the
direct translation of the handler code. -/
def processAnnotated (s : ExaminerStore) :
    List CSVRecord → ExaminerStore × List (CSVRecord × Except String RowPath)
  | [] => (s, [])
  | r :: rest =>
    let step := reconcileRow s r
    let next := processAnnotated step.1 rest
    (next.1, (r, step.2) :: next.2)

/-! ## Ingestion: the HTTP handler (upload-csv route) -/

/-- An uploaded file after CSV parsing (`csv-parse` with `columns: true`
and `skip_empty_lines: true`): the declared media type, the header row,
and the data rows (empty lines already skipped by the parser). -/
structure UploadedFile where
  mimetype : String
  header : List String
  rows : List (List String)
deriving Repr, DecidableEq

/-- Column access on a parsed row object (`record.ExaminerID`,
`record.Name`): `csv-parse` with `columns: true` keys each row by the
header; a column absent from the header reads as `undefined` (`none`). -/
def lookupField (header fields : List String) (col : String) : Option String :=
  (header.zip fields).lookup col

/-- `{ examinerId: record.ExaminerID?.toString(), name: record.Name }`
for one parsed row.  `?.toString()` maps `undefined` to `undefined` and
is the identity on strings. -/
def csvRowToRecord (header fields : List String) : CSVRecord :=
  { examinerId := lookupField header fields "ExaminerID"
    name := lookupField header fields "Name" }

/-- The records array built by the parsing loop of the handler. -/
def csvToRecords (f : UploadedFile) : List CSVRecord :=
  f.rows.map (csvRowToRecord f.header)

/-- The handler's HTTP response: 400 for a missing file, 400 for a
non-CSV media type, else the 200 report
`{ totalProcessed, successCount, failureCount, success, failed }`. -/
inductive UploadResponse where
  | noFile
  | notCsv
  | report (totalProcessed successCount failureCount : Nat)
      (success : List CSVRecord) (failed : List (CSVRecord × String))
deriving Repr, DecidableEq

/-- The `upload-csv` route handler: reject a missing file, reject any
declared media type other than `text/csv` before parsing, otherwise
parse and run the reconcile loop and report the counts. -/
def uploadCsvHandler (s : ExaminerStore) (file : Option UploadedFile) :
    ExaminerStore × UploadResponse :=
  match file with
  | none => (s, .noFile)
  | some f =>
    if f.mimetype ≠ "text/csv" then (s, .notCsv)
    else
      let records := csvToRecords f
      let out := processRecords s records
      (out.1, .report records.length out.2.success.length out.2.failed.length
        out.2.success out.2.failed)

/-- Well-formedness of a store, true of every real MongoDB collection
state: storage ids are pairwise distinct and below the fresh-id counter. -/
def WFStore (s : ExaminerStore) : Prop :=
  (s.docs.map (fun d => d._id)).Nodup ∧ ∀ d ∈ s.docs, d._id < s.nextId

instance (s : ExaminerStore) : Decidable (WFStore s) := by
  unfold WFStore; infer_instance

/-! ## Bootstrap: data model (scripts/setup.ts, fixed fan-out script,
models/administration.ts, models/track.ts, models/station.ts) -/

/-- A station descriptor of the setup template. -/
structure StationConfig where
  stationId : String
  name : String
deriving Repr, DecidableEq

/-- A track descriptor of the setup template. -/
structure TrackConfig where
  trackId : String
  name : String
  stations : List StationConfig
deriving Repr, DecidableEq

/-- An administration descriptor of the setup template. -/
structure AdminConfig where
  adminId : String
  name : String
  tracks : List TrackConfig
deriving Repr, DecidableEq

/-- The setup configuration built from `admin_template.json`. -/
structure SetupConfig where
  administrations : List AdminConfig
deriving Repr, DecidableEq

/-- A stored administration document.  `AdministrationSchema` declares
only the path `name`; `tracks` records the stored track-reference list
of the document, with `[]` for a document that carries no such field
(no code path ever writes one, see `administrationSetTracks`). -/
structure AdminDoc where
  _id : Nat
  name : String
  tracks : List Nat
deriving Repr, DecidableEq

/-- A stored track document (`TrackSchema`: paths `name` and
`administrationId`, both required). -/
structure TrackDoc where
  _id : Nat
  name : String
  administrationId : Nat
deriving Repr, DecidableEq

/-- A stored station document (`StationSchema`: paths `name` and
`trackId`, both required). -/
structure StationDoc where
  _id : Nat
  name : String
  trackId : Nat
deriving Repr, DecidableEq

/-- The collections touched by the bootstrap scripts, plus the counter
supplying fresh storage ids. -/
structure HierarchyDB where
  admins : List AdminDoc
  tracks : List TrackDoc
  stations : List StationDoc
  nextId : Nat
deriving Repr, DecidableEq

/-- `new Administration({ name, adminId }).save()`: `adminId` is not a
schema path so strict mode drops it; `name` is required.  The stored
document carries no `tracks` field. -/
def administrationSave (db : HierarchyDB) (name : String) :
    Except String (HierarchyDB × Nat) :=
  if name = "" then .error "Administration validation failed: Path name is required."
  else .ok ({ db with
              admins := db.admins ++ [{ _id := db.nextId, name := name, tracks := [] }]
              nextId := db.nextId + 1 }, db.nextId)

/-- `new Track({ name, administrationId }).save()` (setup.ts also passes
`trackId`, which is not a `TrackSchema` path and is dropped by strict
mode); `name` and `administrationId` are required. -/
def trackSave (db : HierarchyDB) (name : String) (administrationId : Nat) :
    Except String (HierarchyDB × Nat) :=
  if name = "" then .error "Track validation failed: Path name is required."
  else .ok ({ db with
              tracks := db.tracks ++
                [{ _id := db.nextId, name := name, administrationId := administrationId }]
              nextId := db.nextId + 1 }, db.nextId)

/-- `Station.create({ name, trackId })` (setup.ts also passes
`stationId`, not a `StationSchema` path, dropped by strict mode). -/
def stationSave (db : HierarchyDB) (name : String) (trackId : Nat) :
    Except String HierarchyDB :=
  if name = "" then .error "Station validation failed: Path name is required."
  else .ok { db with
             stations := db.stations ++
               [{ _id := db.nextId, name := name, trackId := trackId }]
             nextId := db.nextId + 1 }

/-- `Administration.findByIdAndUpdate(adminId, { $set: { tracks: trackIds } })`:
`tracks` is not a path of `AdministrationSchema` (the schema declares
only `name`), and Mongoose strict mode — enabled by default — strips
unknown paths from updates, so the `$set` writes nothing and the stored
documents are unchanged. -/
def administrationSetTracks (db : HierarchyDB) (_adminId : Nat)
    (_trackIds : List Nat) : HierarchyDB :=
  db

/-- Station creation for one track in `createAdministrations`
(`Promise.all` over `trackConfig.stations`; the batch is modelled
sequentially in list order, which yields the same stored set). -/
def createStations (db : HierarchyDB) (trackId : Nat)
    (stations : List StationConfig) : Except String HierarchyDB :=
  stations.foldlM (fun db sc => stationSave db sc.name trackId) db

/-- The track loop of `createAdministrations`: create each track of the
administration in order, create its stations, and accumulate the created
track ids. -/
def createTracks (db : HierarchyDB) (administrationId : Nat)
    (tracks : List TrackConfig) : Except String (HierarchyDB × List Nat) :=
  tracks.foldlM (fun acc tc => do
    let res ← trackSave acc.1 tc.name administrationId
    let db2 ← createStations res.1 res.2 tc.stations
    pure (db2, acc.2 ++ [res.2])) (db, [])

/-- One iteration of `createAdministrations`: save the administration,
create its tracks and stations, then issue the batched track-reference
update (a stored no-op, see `administrationSetTracks`). -/
def createAdministrationOne (db : HierarchyDB) (ac : AdminConfig) :
    Except String HierarchyDB := do
  let res ← administrationSave db ac.name
  let res2 ← createTracks res.1 res.2 ac.tracks
  pure (administrationSetTracks res2.1 res.2 res2.2)

/-- `createAdministrations(config)` from setup.ts: sequentially build
each administration of the template with its tracks and stations.  On
any error the run aborts (the catch block rethrows). -/
def createAdministrations (db : HierarchyDB) (cfg : SetupConfig) :
    Except String HierarchyDB :=
  cfg.administrations.foldlM createAdministrationOne db

/-- The storage operations issued by `clearExistingData` of the fixed
fan-out setup script, in program order (lines 8-13 of the script):
`Track.deleteMany({})`, then `Station.deleteMany({})`, then
`Administration.updateMany({}, { $set: { tracks: [] } })`. -/
inductive ClearDataOp where
  | deleteAllTracks
  | deleteAllStations
  | setAdminTracksEmpty
deriving Repr, DecidableEq

/-- The order in which `clearExistingData` issues its operations. -/
def clearExistingDataOps : List ClearDataOp :=
  [.deleteAllTracks, .deleteAllStations, .setAdminTracksEmpty]

/-- `clearExistingData` of the fixed fan-out script: delete all tracks,
then all stations, then issue the bulk administration update — whose
`$set` on `tracks` is stripped by strict mode (not a schema path), so
administration documents are unchanged. -/
def clearExistingData (db : HierarchyDB) : HierarchyDB :=
  let db1 := { db with tracks := [] }
  let db2 := { db1 with stations := [] }
  { db2 with admins := db2.admins.map (fun a => a) }

/-- `setupStationsAndTracks` of the fixed fan-out script: clear, then for
every existing administration create 2 tracks of 3 stations each with
deterministic names, then issue the (stripped) track-reference update.
With no administrations the script exits with failure. -/
def setupStationsAndTracks (db0 : HierarchyDB) : Except String HierarchyDB := do
  let db := clearExistingData db0
  let administrations := db.admins
  if administrations.isEmpty then
    throw "No administrations found. Please create administrations first."
  else
    administrations.foldlM (fun db admin => do
      let res ← (List.range 2).foldlM (fun (acc : HierarchyDB × List Nat) i => do
        let trackName := "Track " ++ toString (i + 1) ++ " - " ++ admin.name
        let tr ← trackSave acc.1 trackName admin._id
        let db2 ← (List.range 3).foldlM (fun db j =>
          stationSave db ("Station " ++ toString (j + 1) ++ " - " ++ trackName) tr.2) tr.1
        pure (db2, acc.2 ++ [tr.2])) (db, [])
      pure (administrationSetTracks res.1 admin._id res.2)) db

/-! ## Ingestion: basic lemmas about the reconcile loop -/

/-- A row is valid when both recognized columns are present and
nonempty; such a row always reconciles successfully. -/
def validRow (r : CSVRecord) : Bool :=
  match r.examinerId, r.name with
  | some k, some n => !(k == "") && !(n == "")
  | _, _ => false

/-- Propositional form of `validRow`. -/
def ValidRow (r : CSVRecord) : Prop := validRow r = true

instance (r : CSVRecord) : Decidable (ValidRow r) := by
  unfold ValidRow; infer_instance

theorem validRow_iff (r : CSVRecord) :
    ValidRow r ↔ ∃ k n, r.examinerId = some k ∧ r.name = some n ∧ k ≠ "" ∧ n ≠ "" := by
  unfold ValidRow validRow
  rcases r with ⟨(_ | k), (_ | n)⟩ <;> simp

theorem processAnnotated_cons (s : ExaminerStore) (r : CSVRecord) (F : List CSVRecord) :
    processAnnotated s (r :: F) =
      ((processAnnotated (reconcileRow s r).1 F).1,
       (r, (reconcileRow s r).2) :: (processAnnotated (reconcileRow s r).1 F).2) := rfl

theorem processRecords_cons_ok (s : ExaminerStore) (r : CSVRecord) (F : List CSVRecord)
    (p : RowPath) (h : (reconcileRow s r).2 = .ok p) :
    processRecords s (r :: F) =
      ((processRecords (reconcileRow s r).1 F).1,
       { success := r :: (processRecords (reconcileRow s r).1 F).2.success
         failed := (processRecords (reconcileRow s r).1 F).2.failed }) := by
  simp only [processRecords, h]

theorem processRecords_cons_error (s : ExaminerStore) (r : CSVRecord) (F : List CSVRecord)
    (m : String) (h : (reconcileRow s r).2 = .error m) :
    processRecords s (r :: F) =
      ((processRecords (reconcileRow s r).1 F).1,
       { success := (processRecords (reconcileRow s r).1 F).2.success
         failed := (r, m) :: (processRecords (reconcileRow s r).1 F).2.failed }) := by
  simp only [processRecords, h]

/-- The two formulations of the loop run the same store. -/
theorem processRecords_state (s : ExaminerStore) (F : List CSVRecord) :
    (processRecords s F).1 = (processAnnotated s F).1 := by
  induction F generalizing s with
  | nil => rfl
  | cons r F ih =>
    rcases h : (reconcileRow s r).2 with m | p
    · rw [processRecords_cons_error _ _ _ _ h, processAnnotated_cons]
      exact ih _
    · rw [processRecords_cons_ok _ _ _ _ h, processAnnotated_cons]
      exact ih _

/-- The success list is the ordered restriction of the annotated outcome
list to its successes. -/
theorem processRecords_success_eq (s : ExaminerStore) (F : List CSVRecord) :
    (processRecords s F).2.success =
      (processAnnotated s F).2.filterMap
        (fun p => match p.2 with | .ok _ => some p.1 | .error _ => none) := by
  induction F generalizing s with
  | nil => rfl
  | cons r F ih =>
    rcases h : (reconcileRow s r).2 with m | p
    · rw [processRecords_cons_error _ _ _ _ h, processAnnotated_cons]
      simp [h, ih]
    · rw [processRecords_cons_ok _ _ _ _ h, processAnnotated_cons]
      simp [h, ih]

/-- The failure list is the ordered restriction of the annotated outcome
list to its failures, paired with the caught messages. -/
theorem processRecords_failed_eq (s : ExaminerStore) (F : List CSVRecord) :
    (processRecords s F).2.failed =
      (processAnnotated s F).2.filterMap
        (fun p => match p.2 with | .ok _ => none | .error m => some (p.1, m)) := by
  induction F generalizing s with
  | nil => rfl
  | cons r F ih =>
    rcases h : (reconcileRow s r).2 with m | p
    · rw [processRecords_cons_error _ _ _ _ h, processAnnotated_cons]
      simp [h, ih]
    · rw [processRecords_cons_ok _ _ _ _ h, processAnnotated_cons]
      simp [h, ih]

/-- Every parsed row appears exactly once in the annotated outcome list,
in input order. -/
theorem processAnnotated_map_fst (s : ExaminerStore) (F : List CSVRecord) :
    (processAnnotated s F).2.map Prod.fst = F := by
  induction F generalizing s with
  | nil => rfl
  | cons r F ih => rw [processAnnotated_cons]; simp [ih]

/-- Each row lands in exactly one of the two lists. -/
theorem processRecords_counts (s : ExaminerStore) (F : List CSVRecord) :
    (processRecords s F).2.success.length + (processRecords s F).2.failed.length
      = F.length := by
  induction F generalizing s with
  | nil => rfl
  | cons r F ih =>
    rcases h : (reconcileRow s r).2 with m | p
    · rw [processRecords_cons_error _ _ _ _ h]
      have := ih (reconcileRow s r).1
      simp only [List.length_cons]
      omega
    · rw [processRecords_cons_ok _ _ _ _ h]
      have := ih (reconcileRow s r).1
      simp only [List.length_cons]
      omega

/-- The success list preserves the relative input order of its rows. -/
theorem processRecords_success_sublist (s : ExaminerStore) (F : List CSVRecord) :
    (processRecords s F).2.success.Sublist F := by
  induction F generalizing s with
  | nil => simp [processRecords]
  | cons r F ih =>
    rcases h : (reconcileRow s r).2 with m | p
    · rw [processRecords_cons_error _ _ _ _ h]
      exact (ih _).cons r
    · rw [processRecords_cons_ok _ _ _ _ h]
      exact (ih _).cons₂ r

/-- The failure list preserves the relative input order of its rows. -/
theorem processRecords_failed_sublist (s : ExaminerStore) (F : List CSVRecord) :
    ((processRecords s F).2.failed.map Prod.fst).Sublist F := by
  induction F generalizing s with
  | nil => simp [processRecords]
  | cons r F ih =>
    rcases h : (reconcileRow s r).2 with m | p
    · rw [processRecords_cons_error _ _ _ _ h]
      exact (ih _).cons₂ r
    · rw [processRecords_cons_ok _ _ _ _ h]
      exact (ih _).cons r

/-- Sequential composition of the loop over concatenated row lists: the
second block is processed from the state the first block left behind,
and the report lists concatenate. -/
theorem processRecords_append (s : ExaminerStore) (A B : List CSVRecord) :
    processRecords s (A ++ B) =
      ((processRecords (processRecords s A).1 B).1,
       { success := (processRecords s A).2.success ++
           (processRecords (processRecords s A).1 B).2.success
         failed := (processRecords s A).2.failed ++
           (processRecords (processRecords s A).1 B).2.failed }) := by
  induction A generalizing s with
  | nil => simp [processRecords]
  | cons r A ih =>
    rcases h : (reconcileRow s r).2 with m | p
    · rw [List.cons_append, processRecords_cons_error _ _ _ _ h,
        processRecords_cons_error _ _ _ _ h, ih]
      simp
    · rw [List.cons_append, processRecords_cons_ok _ _ _ _ h,
        processRecords_cons_ok _ _ _ _ h, ih]
      simp

/-- A failing row leaves the store untouched (the caught error happened
inside `Examiner.create`, which persists nothing on validation or
duplicate-key failure). -/
theorem reconcileRow_error_state (s : ExaminerStore) (r : CSVRecord) (m : String)
    (h : (reconcileRow s r).2 = .error m) : (reconcileRow s r).1 = s := by
  unfold reconcileRow at *
  rcases hf : findOneByExaminerId s r.examinerId with _ | d
  · rcases hc : createExaminer s r with m' | s' <;> simp [hf, hc] at h ⊢
  · simp [hf] at h

/-- A valid row never fails: if the natural key is present and nonempty
and the name is present and nonempty, the reconcile step succeeds. -/
theorem reconcileRow_valid_ok (s : ExaminerStore) (r : CSVRecord) (h : ValidRow r) :
    ∃ p, (reconcileRow s r).2 = .ok p := by
  rcases (validRow_iff r).1 h with ⟨k, n, hk, hn, hk0, hn0⟩
  unfold reconcileRow
  rcases hf : findOneByExaminerId s r.examinerId with _ | d
  · have hnone : s.docs.find? (fun d => d.examinerId == k) = none := by
      rw [hk] at hf; exact hf
    have hany : s.docs.any (fun d => d.examinerId == k) = false := by
      rw [List.any_eq_false]
      intro d hd
      have := List.find?_eq_none.1 hnone d hd
      simpa using this
    unfold createExaminer
    rw [hk, hn]
    simp [hk0, hn0, hany]
  · exact ⟨.updated, rfl⟩

/-- Every valid row of the input ends up in the success list. -/
theorem valid_mem_success (s : ExaminerStore) (F : List CSVRecord) :
    ∀ r ∈ F, ValidRow r → r ∈ (processRecords s F).2.success := by
  induction F generalizing s with
  | nil => intro r hr; simp at hr
  | cons r0 F ih =>
    intro r hr hv
    rcases List.mem_cons.1 hr with rfl | hr'
    · rcases reconcileRow_valid_ok s r hv with ⟨p, hp⟩
      rw [processRecords_cons_ok _ _ _ _ hp]
      exact List.mem_cons_self _ _
    · rcases h : (reconcileRow s r0).2 with m | p
      · rw [processRecords_cons_error _ _ _ _ h]
        exact ih _ r hr' hv
      · rw [processRecords_cons_ok _ _ _ _ h]
        exact List.mem_cons_of_mem _ (ih _ r hr' hv)

/-- Anatomy of a successful `Examiner.create`: the row fields were
present and nonempty, the unique index was clear, and the new document
was appended with the fresh storage id. -/
theorem createExaminer_ok_state (s : ExaminerStore) (r : CSVRecord) (s' : ExaminerStore)
    (h : createExaminer s r = .ok s') :
    ∃ k n, r.examinerId = some k ∧ r.name = some n ∧ k ≠ "" ∧ n ≠ "" ∧
      (s.docs.any (fun d => d.examinerId == k)) = false ∧
      s' = { docs := s.docs ++ [{ _id := s.nextId, examinerId := k, name := n }]
             nextId := s.nextId + 1 } := by
  unfold createExaminer at h
  split at h
  · exact absurd h (by simp)
  · rename_i k hk
    split at h
    · exact absurd h (by simp)
    · rename_i h0
      split at h
      · exact absurd h (by simp)
      · rename_i n hn
        split at h
        · exact absurd h (by simp)
        · rename_i h1
          split at h
          · exact absurd h (by simp)
          · rename_i h2
            exact ⟨k, n, hk, hn, h0, h1, by simpa using h2, (Except.ok.inj h).symm⟩

/-- One reconcile step never shrinks the collection. -/
theorem reconcileRow_length_mono (s : ExaminerStore) (r : CSVRecord) :
    s.docs.length ≤ ((reconcileRow s r).1).docs.length := by
  unfold reconcileRow
  rcases hf : findOneByExaminerId s r.examinerId with _ | d
  · rcases hc : createExaminer s r with m | s'
    · simp
    · rcases createExaminer_ok_state s r s' hc with ⟨k, n, _, _, _, _, _, hs'⟩
      simp [hs']
  · simp [updateExaminerById]

/-- The ingestion loop never deletes stored documents: the collection
size never decreases. -/
theorem processRecords_length_mono (s : ExaminerStore) (F : List CSVRecord) :
    s.docs.length ≤ ((processRecords s F).1).docs.length := by
  induction F generalizing s with
  | nil => simp [processRecords]
  | cons r F ih =>
    rcases h : (reconcileRow s r).2 with m | p
    · rw [processRecords_cons_error _ _ _ _ h]
      exact le_trans (reconcileRow_length_mono s r) (ih _)
    · rw [processRecords_cons_ok _ _ _ _ h]
      exact le_trans (reconcileRow_length_mono s r) (ih _)

/-- A row whose key misses the collection and whose fields pass
validation takes the insert path and appends a document with the fresh
storage id. -/
theorem reconcileRow_insert (s : ExaminerStore) (k n : String)
    (hk : k ≠ "") (hn : n ≠ "") (hmiss : ∀ d ∈ s.docs, d.examinerId ≠ k) :
    reconcileRow s ⟨some k, some n⟩ =
      ({ docs := s.docs ++ [{ _id := s.nextId, examinerId := k, name := n }]
         nextId := s.nextId + 1 }, .ok .inserted) := by
  have hfind : s.docs.find? (fun d => d.examinerId == k) = none :=
    List.find?_eq_none.2 (fun d hd => by simp [hmiss d hd])
  have hany : s.docs.any (fun d => d.examinerId == k) = false :=
    List.any_eq_false.2 (fun d hd => by simp [hmiss d hd])
  simp [reconcileRow, findOneByExaminerId, createExaminer, hfind, hany, hk, hn]

/-- A row whose key hits a stored document takes the update path on that
document's storage id. -/
theorem reconcileRow_update (s : ExaminerStore) (k : String) (nOpt : Option String)
    (d : StoredExaminer)
    (hfind : s.docs.find? (fun x => x.examinerId == k) = some d) :
    reconcileRow s ⟨some k, nOpt⟩ =
      (updateExaminerById s d._id ⟨some k, nOpt⟩, .ok .updated) := by
  simp [reconcileRow, findOneByExaminerId, hfind]

/-- Two rows with the same fresh, valid natural key: the first inserts a
document, the second updates that same document (same storage id) in
place, leaving exactly one stored record for the key, carrying the
second row's name. -/
theorem pair_insert_update (s : ExaminerStore) (k n₁ n₂ : String)
    (hWF : WFStore s) (hk : k ≠ "") (h₁ : n₁ ≠ "")
    (hmiss : ∀ d ∈ s.docs, d.examinerId ≠ k) :
    processAnnotated s [⟨some k, some n₁⟩, ⟨some k, some n₂⟩] =
      ({ docs := s.docs ++ [{ _id := s.nextId, examinerId := k, name := n₂ }]
         nextId := s.nextId + 1 },
       [(⟨some k, some n₁⟩, .ok .inserted), (⟨some k, some n₂⟩, .ok .updated)]) := by
  have e1 := reconcileRow_insert s k n₁ hk h₁ hmiss
  have hfind0 : s.docs.find? (fun d => d.examinerId == k) = none :=
    List.find?_eq_none.2 (fun d hd => by simp [hmiss d hd])
  have hfind1 :
      (s.docs ++ [({ _id := s.nextId, examinerId := k, name := n₁ } : StoredExaminer)]).find?
        (fun x => x.examinerId == k) =
      some { _id := s.nextId, examinerId := k, name := n₁ } := by
    rw [List.find?_append, hfind0]
    simp
  have e2 := reconcileRow_update
    ({ docs := s.docs ++ [{ _id := s.nextId, examinerId := k, name := n₁ }]
       nextId := s.nextId + 1 }) k (some n₂) _ hfind1
  have hupd :
      updateExaminerById
        ({ docs := s.docs ++ [{ _id := s.nextId, examinerId := k, name := n₁ }]
           nextId := s.nextId + 1 }) s.nextId ⟨some k, some n₂⟩ =
      { docs := s.docs ++ [{ _id := s.nextId, examinerId := k, name := n₂ }]
        nextId := s.nextId + 1 } := by
    unfold updateExaminerById
    have h1 : s.docs.map
        (fun d => if d._id == s.nextId then applyRecordPatch ⟨some k, some n₂⟩ d else d)
        = s.docs :=
      calc s.docs.map
            (fun d => if d._id == s.nextId then applyRecordPatch ⟨some k, some n₂⟩ d else d)
          = s.docs.map id := List.map_congr_left (fun d hd => by
              have hlt : d._id < s.nextId := hWF.2 d hd
              have hne : (d._id == s.nextId) = false := by
                simp only [beq_eq_false_iff_ne]
                omega
              simp [hne])
        _ = s.docs := List.map_id s.docs
    simp only [List.map_append, h1]
    simp [applyRecordPatch]
  rw [processAnnotated_cons, e1]
  rw [processAnnotated_cons, e2, hupd]
  rfl

/-- Unfolding of the handler on a CSV-typed upload. -/
theorem uploadCsvHandler_csv (s : ExaminerStore) (f : UploadedFile)
    (hm : f.mimetype = "text/csv") :
    uploadCsvHandler s (some f) =
      ((processRecords s (csvToRecords f)).1,
       .report (csvToRecords f).length
         (processRecords s (csvToRecords f)).2.success.length
         (processRecords s (csvToRecords f)).2.failed.length
         (processRecords s (csvToRecords f)).2.success
         (processRecords s (csvToRecords f)).2.failed) := by
  simp [uploadCsvHandler, hm]

/-! ## Claim theorems: ingestion -/

/-- Claim C2: within-file duplicate natural keys resolve in file order.
Reconciliation is strictly sequential, so of two rows sharing a fresh
valid natural key the first inserts a document and the second updates
that same document (same storage id) in place, leaving one stored record
carrying the second row's name.  In particular, ingesting the file with
header `ExaminerID,Name` and rows `(E1,Ann)`, `(E1,Ann B)`, `(E2,Bob)`
into an empty store reports successCount 3, failureCount 0 and stores
E1 under the name `Ann B` and E2 under `Bob`. -/
theorem claim_C2 :
    (uploadCsvHandler ⟨[], 0⟩
        (some ⟨"text/csv", ["ExaminerID", "Name"],
          [["E1", "Ann"], ["E1", "Ann B"], ["E2", "Bob"]]⟩) =
      (⟨[⟨0, "E1", "Ann B"⟩, ⟨1, "E2", "Bob"⟩], 2⟩,
       .report 3 3 0
         [⟨some "E1", some "Ann"⟩, ⟨some "E1", some "Ann B"⟩, ⟨some "E2", some "Bob"⟩]
         []))
    ∧ ∀ (s : ExaminerStore) (k n₁ n₂ : String), WFStore s → k ≠ "" → n₁ ≠ "" →
        (∀ d ∈ s.docs, d.examinerId ≠ k) →
        processAnnotated s [⟨some k, some n₁⟩, ⟨some k, some n₂⟩] =
          ({ docs := s.docs ++ [{ _id := s.nextId, examinerId := k, name := n₂ }]
             nextId := s.nextId + 1 },
           [(⟨some k, some n₁⟩, .ok .inserted), (⟨some k, some n₂⟩, .ok .updated)]) :=
  ⟨by decide, fun s k n₁ n₂ hWF hk h₁ hmiss => pair_insert_update s k n₁ n₂ hWF hk h₁ hmiss⟩

/-- Witness for C2: the general conjunct evaluated on a concrete store
and key. -/
theorem claim_C2_witness :
    processAnnotated ⟨[⟨5, "EX", "Old"⟩], 6⟩ [⟨some "E7", some "A"⟩, ⟨some "E7", some "B"⟩] =
      (⟨[⟨5, "EX", "Old"⟩, ⟨6, "E7", "B"⟩], 7⟩,
       [(⟨some "E7", some "A"⟩, .ok .inserted), (⟨some "E7", some "B"⟩, .ok .updated)]) :=
  claim_C2.2 ⟨[⟨5, "EX", "Old"⟩], 6⟩ "E7" "A" "B" (by decide) (by decide) (by decide)
    (by decide)

/-- Claim C3: row-failure isolation.  If the row `r` fails when reached
(with caught message `m`), it is appended to the failure list with that
reason, the store is unchanged by it, every subsequent row is processed
exactly as it would have been without the failure, and every valid
subsequent row still lands in the success list. -/
theorem claim_C3 (s : ExaminerStore) (F1 F2 : List CSVRecord) (r : CSVRecord) (m : String)
    (h : (reconcileRow (processRecords s F1).1 r).2 = .error m) :
    processRecords s (F1 ++ r :: F2) =
      ((processRecords (processRecords s F1).1 F2).1,
       { success := (processRecords s F1).2.success ++
           (processRecords (processRecords s F1).1 F2).2.success
         failed := (processRecords s F1).2.failed ++
           (r, m) :: (processRecords (processRecords s F1).1 F2).2.failed })
    ∧ ∀ r' ∈ F2, ValidRow r' → r' ∈ (processRecords s (F1 ++ r :: F2)).2.success := by
  have hstate := reconcileRow_error_state _ r m h
  have hmain : processRecords s (F1 ++ r :: F2) =
      ((processRecords (processRecords s F1).1 F2).1,
       { success := (processRecords s F1).2.success ++
           (processRecords (processRecords s F1).1 F2).2.success
         failed := (processRecords s F1).2.failed ++
           (r, m) :: (processRecords (processRecords s F1).1 F2).2.failed }) := by
    rw [processRecords_append, processRecords_cons_error _ _ _ _ h, hstate]
  refine ⟨hmain, fun r' hr' hv => ?_⟩
  rw [hmain]
  exact List.mem_append_right _ (valid_mem_success _ F2 r' hr' hv)

/-- Witness for C3: a concrete failing middle row (empty name fails the
`required` validator on create) between two valid rows. -/
theorem claim_C3_witness :
    processRecords ⟨[], 0⟩
        [⟨some "E1", some "Ann"⟩, ⟨some "E2", some ""⟩, ⟨some "E3", some "Cid"⟩] =
      ((processRecords (processRecords ⟨[], 0⟩ [⟨some "E1", some "Ann"⟩]).1
          [⟨some "E3", some "Cid"⟩]).1,
       { success := (processRecords ⟨[], 0⟩ [⟨some "E1", some "Ann"⟩]).2.success ++
           (processRecords (processRecords ⟨[], 0⟩ [⟨some "E1", some "Ann"⟩]).1
             [⟨some "E3", some "Cid"⟩]).2.success
         failed := (processRecords ⟨[], 0⟩ [⟨some "E1", some "Ann"⟩]).2.failed ++
           (⟨some "E2", some ""⟩, nameRequiredMsg) ::
             (processRecords (processRecords ⟨[], 0⟩ [⟨some "E1", some "Ann"⟩]).1
               [⟨some "E3", some "Cid"⟩]).2.failed })
    ∧ ∀ r' ∈ [(⟨some "E3", some "Cid"⟩ : CSVRecord)], ValidRow r' →
        r' ∈ (processRecords ⟨[], 0⟩
          [⟨some "E1", some "Ann"⟩, ⟨some "E2", some ""⟩, ⟨some "E3", some "Cid"⟩]).2.success :=
  claim_C3 ⟨[], 0⟩ [⟨some "E1", some "Ann"⟩] [⟨some "E3", some "Cid"⟩]
    ⟨some "E2", some ""⟩ nameRequiredMsg rfl

/-- Claim C4: the report is an order-preserving partition of the parsed
rows.  Every row gets exactly one outcome; the success and failure lists
are the order-preserving restrictions of the outcome list; both are
sublists of the input; their lengths add up to the number of parsed
rows; and the handler's reported totalProcessed equals
successCount + failureCount. -/
theorem claim_C4 (s : ExaminerStore) (F : List CSVRecord) :
    (processAnnotated s F).2.map Prod.fst = F
    ∧ (processRecords s F).2.success =
        (processAnnotated s F).2.filterMap
          (fun p => match p.2 with | .ok _ => some p.1 | .error _ => none)
    ∧ (processRecords s F).2.failed =
        (processAnnotated s F).2.filterMap
          (fun p => match p.2 with | .ok _ => none | .error m => some (p.1, m))
    ∧ (processRecords s F).2.success.Sublist F
    ∧ ((processRecords s F).2.failed.map Prod.fst).Sublist F
    ∧ (processRecords s F).2.success.length + (processRecords s F).2.failed.length = F.length
    ∧ ∀ (f : UploadedFile), f.mimetype = "text/csv" →
        uploadCsvHandler s (some f) =
          ((processRecords s (csvToRecords f)).1,
           .report ((processRecords s (csvToRecords f)).2.success.length +
               (processRecords s (csvToRecords f)).2.failed.length)
             (processRecords s (csvToRecords f)).2.success.length
             (processRecords s (csvToRecords f)).2.failed.length
             (processRecords s (csvToRecords f)).2.success
             (processRecords s (csvToRecords f)).2.failed) := by
  refine ⟨processAnnotated_map_fst s F, processRecords_success_eq s F,
    processRecords_failed_eq s F, processRecords_success_sublist s F,
    processRecords_failed_sublist s F, processRecords_counts s F, ?_⟩
  intro f hm
  rw [processRecords_counts]
  exact uploadCsvHandler_csv s f hm

/-- Witness for C4: the handler conjunct evaluated on a concrete CSV
upload. -/
theorem claim_C4_witness :
    uploadCsvHandler ⟨[], 0⟩ (some ⟨"text/csv", ["ExaminerID", "Name"], [["E1", "Ann"]]⟩) =
      ((processRecords ⟨[], 0⟩
          (csvToRecords ⟨"text/csv", ["ExaminerID", "Name"], [["E1", "Ann"]]⟩)).1,
       .report
         ((processRecords ⟨[], 0⟩
             (csvToRecords ⟨"text/csv", ["ExaminerID", "Name"], [["E1", "Ann"]]⟩)).2.success.length +
          (processRecords ⟨[], 0⟩
             (csvToRecords ⟨"text/csv", ["ExaminerID", "Name"], [["E1", "Ann"]]⟩)).2.failed.length)
         (processRecords ⟨[], 0⟩
           (csvToRecords ⟨"text/csv", ["ExaminerID", "Name"], [["E1", "Ann"]]⟩)).2.success.length
         (processRecords ⟨[], 0⟩
           (csvToRecords ⟨"text/csv", ["ExaminerID", "Name"], [["E1", "Ann"]]⟩)).2.failed.length
         (processRecords ⟨[], 0⟩
           (csvToRecords ⟨"text/csv", ["ExaminerID", "Name"], [["E1", "Ann"]]⟩)).2.success
         (processRecords ⟨[], 0⟩
           (csvToRecords ⟨"text/csv", ["ExaminerID", "Name"], [["E1", "Ann"]]⟩)).2.failed) :=
  (claim_C4 ⟨[], 0⟩
    (csvToRecords ⟨"text/csv", ["ExaminerID", "Name"], [["E1", "Ann"]]⟩)).2.2.2.2.2.2
    ⟨"text/csv", ["ExaminerID", "Name"], [["E1", "Ann"]]⟩ rfl

/-- Claim C5: media-type precondition.  Any upload whose declared media
type is not `text/csv` (in particular `text/plain`) is rejected before
parsing: the response is the invalid-format rejection and the stored
state is unchanged. -/
theorem claim_C5 (s : ExaminerStore) (f : UploadedFile)
    (h : f.mimetype ≠ "text/csv") :
    uploadCsvHandler s (some f) = (s, .notCsv) := by
  simp [uploadCsvHandler, h]

/-- Witness for C5: a `text/plain` upload is rejected with the store
untouched. -/
theorem claim_C5_witness :
    uploadCsvHandler ⟨[⟨0, "E1", "Ann"⟩], 1⟩
      (some ⟨"text/plain", ["ExaminerID", "Name"], [["E9", "Zoe"]]⟩) =
      (⟨[⟨0, "E1", "Ann"⟩], 1⟩, .notCsv) :=
  claim_C5 _ _ (by decide)

/-- Claim C6 (divergence exhibited): a CSV whose header lacks the
`ExaminerID` column parses to rows with an `undefined` natural key; run
against a store holding the unrelated examiner (E1, Ann), the row does
NOT fail reconciliation — the dropped-`undefined` filter matches the
first stored document, the row takes the update path, lands in the
success list, and rewrites E1's name, contradicting the claim that such
rows fail and leave unrelated records untouched. -/
theorem claim_C6_eval :
    csvToRecords ⟨"text/csv", ["Name"], [["Bob"]]⟩ = [⟨none, some "Bob"⟩]
    ∧ uploadCsvHandler ⟨[⟨0, "E1", "Ann"⟩], 1⟩ (some ⟨"text/csv", ["Name"], [["Bob"]]⟩) =
        (⟨[⟨0, "E1", "Bob"⟩], 1⟩, .report 1 1 0 [⟨none, some "Bob"⟩] [])
    ∧ (⟨[⟨0, "E1", "Bob"⟩], 1⟩ : ExaminerStore) ≠ ⟨[⟨0, "E1", "Ann"⟩], 1⟩ := by
  refine ⟨rfl, rfl, by decide⟩

/-- Claim C10 (divergence exhibited, no-deletion part proved): ingestion
never shrinks the collection, but a row with an `undefined` natural key
modifies a stored record whose key matches no row of the file (the
dropped-`undefined` filter returns the first document). -/
theorem claim_C10_eval :
    processRecords ⟨[⟨0, "E2", "Bea"⟩], 1⟩ [⟨none, some "Zed"⟩] =
      (⟨[⟨0, "E2", "Zed"⟩], 1⟩, ⟨[⟨none, some "Zed"⟩], []⟩)
    ∧ (∀ r ∈ ([⟨none, some "Zed"⟩] : List CSVRecord), r.examinerId ≠ some "E2")
    ∧ ∀ (s : ExaminerStore) (F : List CSVRecord),
        s.docs.length ≤ ((processRecords s F).1).docs.length :=
  ⟨by decide, by decide, processRecords_length_mono⟩

/-! ## Claim theorems: bootstrap -/

/-- A one-administration, one-track, one-station template instance. -/
def templateC7 : SetupConfig :=
  ⟨[⟨"admin_1", "Spring 2025 Administration",
     [⟨"track_1", "Track 1 - Spring 2025", [⟨"station_1", "Station 1 - Track 1"⟩]⟩]⟩]⟩

/-- The stored state produced by running `createAdministrations` on
`templateC7` from an empty store. -/
def dbC7 : HierarchyDB :=
  ⟨[⟨0, "Spring 2025 Administration", []⟩],
   [⟨1, "Track 1 - Spring 2025", 0⟩],
   [⟨2, "Station 1 - Track 1", 1⟩], 3⟩

/-- Claim C7 (divergence exhibited, reference part proved): template
bootstrap of one administration with one track and one station creates
the right number of tracks and stations, and every created track and
station reference resolves; but the administration's stored
track-reference list is empty, not the list of created track ids — the
batched `$set` on `tracks` is stripped by strict mode because
`AdministrationSchema` declares no such path. -/
theorem claim_C7_eval :
    createAdministrations ⟨[], [], [], 0⟩ templateC7 = .ok dbC7
    ∧ dbC7.tracks.length = 1
    ∧ dbC7.stations.length = 1
    ∧ (∀ t ∈ dbC7.tracks, ∃ a ∈ dbC7.admins, a._id = t.administrationId)
    ∧ (∀ st ∈ dbC7.stations, ∃ t ∈ dbC7.tracks, t._id = st.trackId)
    ∧ dbC7.tracks.map (fun t => t._id) = [1]
    ∧ ∀ a ∈ dbC7.admins, a.tracks = [] ∧ a.tracks ≠ [1] := by
  exact ⟨rfl, rfl, rfl, by decide, by decide, rfl, by decide⟩

/-- A store holding exactly one administration, as the fixed fan-out
scenario requires. -/
def dbC8start : HierarchyDB := ⟨[⟨0, "Admin A", []⟩], [], [], 1⟩

/-- The stored state produced by the fixed fan-out setup over
`dbC8start`. -/
def dbC8 : HierarchyDB :=
  ⟨[⟨0, "Admin A", []⟩],
   [⟨1, "Track 1 - Admin A", 0⟩, ⟨5, "Track 2 - Admin A", 0⟩],
   [⟨2, "Station 1 - Track 1 - Admin A", 1⟩, ⟨3, "Station 2 - Track 1 - Admin A", 1⟩,
    ⟨4, "Station 3 - Track 1 - Admin A", 1⟩, ⟨6, "Station 1 - Track 2 - Admin A", 5⟩,
    ⟨7, "Station 2 - Track 2 - Admin A", 5⟩, ⟨8, "Station 3 - Track 2 - Admin A", 5⟩], 9⟩

/-- Claim C8 (divergence exhibited, fan-out part proved): the fixed
fan-out bootstrap over one administration creates exactly 2 tracks and
6 stations with the deterministic names `Track i - admin` and
`Station j - track`, each track holding 3 stations; but the
administration's stored track-reference list has length 0, not 2 — the
`$set` on `tracks` is stripped by strict mode (no such schema path). -/
theorem claim_C8_eval :
    setupStationsAndTracks dbC8start = .ok dbC8
    ∧ dbC8.tracks.length = 2
    ∧ dbC8.stations.length = 6
    ∧ dbC8.tracks.map (fun t => t.name) = ["Track 1 - Admin A", "Track 2 - Admin A"]
    ∧ (∀ t ∈ dbC8.tracks, t.administrationId = 0 ∧
        (dbC8.stations.filter (fun st => st.trackId == t._id)).length = 3)
    ∧ ∀ a ∈ dbC8.admins, a.tracks.length = 0 ∧ a.tracks.length ≠ 2 := by
  exact ⟨rfl, rfl, rfl, rfl, by decide, by decide⟩

/-- Claim C9, counterexample to the stated deletion order: the reset
issues `Track.deleteMany` BEFORE `Station.deleteMany`, so its operation
sequence is not stations-first-then-tracks as claimed. -/
theorem claim_C9_counterexample :
    clearExistingDataOps ≠
      [ClearDataOp.deleteAllStations, ClearDataOp.deleteAllTracks,
       ClearDataOp.setAdminTracksEmpty] := by
  decide

/-- Claim C9 as amended: the reset deletes all tracks first, then all
stations, then issues the bulk administration update aimed at clearing
track references (a stored no-op, since `AdministrationSchema` has no
`tracks` path); it deletes no administration record, and afterwards the
station count is 0, the track count is 0, and every administration's
stored track-reference list is (still) empty. -/
theorem claim_C9 (db : HierarchyDB) (h : ∀ a ∈ db.admins, a.tracks = []) :
    clearExistingData db =
      { admins := db.admins, tracks := [], stations := [], nextId := db.nextId }
    ∧ (clearExistingData db).stations.length = 0
    ∧ (clearExistingData db).tracks.length = 0
    ∧ (∀ a ∈ (clearExistingData db).admins, a.tracks = [])
    ∧ clearExistingDataOps =
        [ClearDataOp.deleteAllTracks, ClearDataOp.deleteAllStations,
         ClearDataOp.setAdminTracksEmpty] := by
  have hmain : clearExistingData db =
      { admins := db.admins, tracks := [], stations := [], nextId := db.nextId } := by
    simp [clearExistingData]
  refine ⟨hmain, by simp [hmain], by simp [hmain], ?_, rfl⟩
  rw [hmain]
  exact h

/-- Witness for C9 on a concrete populated store. -/
theorem claim_C9_witness :
    clearExistingData ⟨[⟨0, "A", []⟩], [⟨5, "T", 0⟩], [⟨6, "S", 5⟩], 7⟩ =
      { admins := [⟨0, "A", []⟩], tracks := [], stations := [], nextId := 7 }
    ∧ (clearExistingData ⟨[⟨0, "A", []⟩], [⟨5, "T", 0⟩], [⟨6, "S", 5⟩], 7⟩).stations.length = 0
    ∧ (clearExistingData ⟨[⟨0, "A", []⟩], [⟨5, "T", 0⟩], [⟨6, "S", 5⟩], 7⟩).tracks.length = 0
    ∧ (∀ a ∈ (clearExistingData ⟨[⟨0, "A", []⟩], [⟨5, "T", 0⟩], [⟨6, "S", 5⟩], 7⟩).admins,
        a.tracks = [])
    ∧ clearExistingDataOps =
        [ClearDataOp.deleteAllTracks, ClearDataOp.deleteAllStations,
         ClearDataOp.setAdminTracksEmpty] :=
  claim_C9 ⟨[⟨0, "A", []⟩], [⟨5, "T", 0⟩], [⟨6, "S", 5⟩], 7⟩ (by decide)

/-! ## Idempotence machinery: shapes, first-match positions, write
positions.  The storage identity and natural key of a stored document
are immutable across the loop (updates rewrite the key to its own
value); names are the only mutable field.  The second-run analysis
tracks, per position, whether some later row of the first run writes the
name there. -/

/-- The immutable part of a stored document: storage id and natural
key. -/
def idKey (d : StoredExaminer) : Nat × String := (d._id, d.examinerId)

/-- The per-position ids and keys of a store. -/
def storeShape (s : ExaminerStore) : List (Nat × String) := s.docs.map idKey

/-- The store left behind by the reconcile loop. -/
def runState (s : ExaminerStore) (F : List CSVRecord) : ExaminerStore :=
  (processAnnotated s F).1

theorem runState_nil (s : ExaminerStore) : runState s [] = s := rfl

theorem runState_cons (s : ExaminerStore) (r : CSVRecord) (F : List CSVRecord) :
    runState s (r :: F) = runState (reconcileRow s r).1 F := rfl

theorem processRecords_runState (s : ExaminerStore) (F : List CSVRecord) :
    (processRecords s F).1 = runState s F :=
  processRecords_state s F

/-- Position of the first list element satisfying a predicate. -/
def firstIdxBy (l : List StoredExaminer) (p : StoredExaminer → Bool) : Option Nat :=
  match l with
  | [] => none
  | a :: l' => if p a then some 0 else (firstIdxBy l' p).map (· + 1)

/-- Position of the first key `k` in a shape list. -/
def firstKeyIdx (L : List (Nat × String)) (k : String) : Option Nat :=
  match L with
  | [] => none
  | pr :: L' => if pr.2 == k then some 0 else (firstKeyIdx L' k).map (· + 1)

theorem firstIdxBy_eq_firstKeyIdx (l : List StoredExaminer) (k : String) :
    firstIdxBy l (fun d => d.examinerId == k) = firstKeyIdx (l.map idKey) k := by
  induction l with
  | nil => rfl
  | cons a l ih => simp only [firstIdxBy, firstKeyIdx, List.map_cons, idKey, ih]

theorem firstKeyIdx_append_some (L₁ L₂ : List (Nat × String)) (k : String) (q : Nat)
    (h : firstKeyIdx L₁ k = some q) : firstKeyIdx (L₁ ++ L₂) k = some q := by
  induction L₁ generalizing q with
  | nil => simp [firstKeyIdx] at h
  | cons pr L₁ ih =>
    rw [firstKeyIdx] at h
    rw [List.cons_append, firstKeyIdx]
    by_cases hp : (pr.2 == k) = true
    · rw [if_pos hp] at h ⊢
      exact h
    · rw [if_neg hp] at h ⊢
      rcases hm : firstKeyIdx L₁ k with _ | q'
      · rw [hm] at h
        simp at h
      · rw [hm] at h
        rw [ih q' hm]
        exact h

theorem firstKeyIdx_append_none (L₁ L₂ : List (Nat × String)) (k : String)
    (h : firstKeyIdx L₁ k = none) :
    firstKeyIdx (L₁ ++ L₂) k = (firstKeyIdx L₂ k).map (· + L₁.length) := by
  induction L₁ with
  | nil => simp [firstKeyIdx]
  | cons pr L₁ ih =>
    rw [firstKeyIdx] at h
    rw [List.cons_append, firstKeyIdx]
    by_cases hp : (pr.2 == k) = true
    · rw [if_pos hp] at h
      simp at h
    · rw [if_neg hp] at h ⊢
      have hL : firstKeyIdx L₁ k = none := by
        rcases hm : firstKeyIdx L₁ k with _ | q'
        · rfl
        · rw [hm] at h; simp at h
      rw [ih hL]
      cases firstKeyIdx L₂ k
      · rfl
      · simp [Nat.add_assoc]

theorem firstKeyIdx_none_of_keys_ne (L : List (Nat × String)) (k : String)
    (h : ∀ pr ∈ L, pr.2 ≠ k) : firstKeyIdx L k = none := by
  induction L with
  | nil => rfl
  | cons pr L ih =>
    have h0 : (pr.2 == k) = false := by
      simp only [beq_eq_false_iff_ne]
      exact h pr (List.mem_cons_self _ _)
    simp [firstKeyIdx, h0, ih (fun x hx => h x (List.mem_cons_of_mem _ hx))]

theorem firstIdxBy_none_spec (l : List StoredExaminer) (p : StoredExaminer → Bool)
    (h : firstIdxBy l p = none) : l.find? p = none := by
  induction l with
  | nil => rfl
  | cons a l ih =>
    rw [firstIdxBy] at h
    by_cases hp : p a = true
    · rw [if_pos hp] at h
      simp at h
    · rw [if_neg hp] at h
      have hl : firstIdxBy l p = none := by
        rcases hm : firstIdxBy l p with _ | q'
        · rfl
        · rw [hm] at h; simp at h
      rw [List.find?_cons_of_neg _ hp]
      exact ih hl

theorem firstIdxBy_some_spec (l : List StoredExaminer) (p : StoredExaminer → Bool)
    (q : Nat) (h : firstIdxBy l p = some q) :
    ∃ a, l[q]? = some a ∧ p a = true ∧ l.find? p = some a := by
  induction l generalizing q with
  | nil => simp [firstIdxBy] at h
  | cons a l ih =>
    rw [firstIdxBy] at h
    by_cases hp : p a = true
    · rw [if_pos hp] at h
      obtain rfl : (0 : Nat) = q := Option.some.inj h
      exact ⟨a, by simp, hp, List.find?_cons_of_pos _ hp⟩
    · rw [if_neg hp] at h
      rcases hm : firstIdxBy l p with _ | q'
      · rw [hm] at h; simp at h
      · rw [hm] at h
        obtain rfl : q' + 1 = q := by simpa using h
        rcases ih q' hm with ⟨b, hb1, hb2, hb3⟩
        refine ⟨b, by simpa using hb1, hb2, ?_⟩
        rw [List.find?_cons_of_neg _ hp]
        exact hb3

/-- The position whose stored `name` the row writes when reconciled
against store `t` (the update target's position, or the append position
for an insert), or `none` when the row fails or carries no name field. -/
def writesName (t : ExaminerStore) (r : CSVRecord) : Option Nat :=
  match r.name with
  | none => none
  | some n =>
    match r.examinerId with
    | none => if t.docs.isEmpty then none else some 0
    | some k =>
      match firstIdxBy t.docs (fun d => d.examinerId == k) with
      | some q => some q
      | none => if k = "" ∨ n = "" then none else some t.docs.length

/-- Whether some row of `F`, run from `t`, writes the stored name at
position `p`. -/
def writtenLater (t : ExaminerStore) (F : List CSVRecord) (p : Nat) : Bool :=
  match F with
  | [] => false
  | r :: R => (writesName t r == some p) || writtenLater (reconcileRow t r).1 R p

/-- The reconcile step on a row that misses the lookup and fails
creation reports the creation error and leaves the store unchanged. -/
theorem reconcileRow_fail_of_createError (s : ExaminerStore) (r : CSVRecord) (m : String)
    (hfind : findOneByExaminerId s r.examinerId = none)
    (hcreate : createExaminer s r = .error m) :
    reconcileRow s r = (s, .error m) := by
  simp [reconcileRow, hfind, hcreate]

theorem createExaminer_error_keyNone (s : ExaminerStore) (r : CSVRecord)
    (h : r.examinerId = none) : createExaminer s r = .error examinerIdRequiredMsg := by
  simp [createExaminer, h]

theorem createExaminer_error_keyEmpty (s : ExaminerStore) (r : CSVRecord)
    (hk : r.examinerId = some "") : createExaminer s r = .error examinerIdRequiredMsg := by
  simp [createExaminer, hk]

theorem createExaminer_error_nameNone (s : ExaminerStore) (r : CSVRecord) (k : String)
    (hk : r.examinerId = some k) (hkv : k ≠ "") (hn : r.name = none) :
    createExaminer s r = .error nameRequiredMsg := by
  simp [createExaminer, hk, hkv, hn]

theorem createExaminer_error_nameEmpty (s : ExaminerStore) (r : CSVRecord) (k : String)
    (hk : r.examinerId = some k) (hkv : k ≠ "") (hn : r.name = some "") :
    createExaminer s r = .error nameRequiredMsg := by
  simp [createExaminer, hk, hkv, hn]

/-- With pairwise-distinct storage ids, updating by the id of the
document at position `q` rewrites exactly position `q`. -/
theorem updateById_eq_set (s : ExaminerStore) (r : CSVRecord) (q : Nat) (d : StoredExaminer)
    (hids : (s.docs.map (fun x => x._id)).Nodup)
    (hq : s.docs[q]? = some d) :
    updateExaminerById s d._id r =
      { s with docs := s.docs.set q (applyRecordPatch r d) } := by
  unfold updateExaminerById
  have hqlt : q < s.docs.length := by
    by_contra hlt
    rw [List.getElem?_eq_none (by omega)] at hq
    exact absurd hq (by simp)
  congr 1
  apply List.ext_getElem?
  intro j
  rw [List.getElem?_map]
  by_cases hj : j = q
  · subst hj
    rw [hq, List.getElem?_set_eq_of_lt _ hqlt]
    simp
  · rw [List.getElem?_set_ne (fun h => hj h.symm)]
    rcases he : s.docs[j]? with _ | e
    · rfl
    · have hne : e._id ≠ d._id := by
        intro heq
        have hjlt : j < s.docs.length := by
          by_contra hlt
          rw [List.getElem?_eq_none (by omega)] at he
          exact absurd he (by simp)
        have h1 : (s.docs.map (fun x => x._id))[j]? = some d._id := by
          rw [List.getElem?_map, he]
          simp [heq]
        have h2 : (s.docs.map (fun x => x._id))[q]? = some d._id := by
          rw [List.getElem?_map, hq]
          rfl
        exact hj (List.getElem?_inj (by simpa using hjlt) hids (h1.trans h2.symm))
      have hpatch : (if e._id == d._id then applyRecordPatch r e else e) = e := by
        rw [if_neg (by simpa using hne)]
      exact congrArg some hpatch

/-- Setting a position to a document with the same id and key preserves
the shape. -/
theorem shape_set_of_idKey (s : ExaminerStore) (q : Nat) (x d : StoredExaminer)
    (hq : s.docs[q]? = some d) (hid : idKey x = idKey d) :
    (s.docs.set q x).map idKey = storeShape s := by
  apply List.ext_getElem?
  intro j
  rw [List.getElem?_map]
  unfold storeShape
  rw [List.getElem?_map]
  by_cases hj : j = q
  · subst hj
    have hqlt : j < s.docs.length := by
      by_contra hlt
      rw [List.getElem?_eq_none (by omega)] at hq
      exact absurd hq (by simp)
    rw [List.getElem?_set_eq_of_lt _ hqlt, hq]
    simp [hid]
  · rw [List.getElem?_set_ne (fun h => hj h.symm)]

theorem getElem?_zero_of_head? {α : Type} (l : List α) (a : α) (h : l.head? = some a) :
    l[0]? = some a := by
  cases l with
  | nil => simp at h
  | cons b l => simpa using h

/-- Complete case analysis of one reconcile step over a well-formed
store: an in-place update of one position, an append of a fresh
document, or a failure leaving the store unchanged — together with what
`writesName` reports in each case. -/
theorem reconcileRow_cases (t : ExaminerStore) (r : CSVRecord) (hWF : WFStore t) :
    (∃ q d, t.docs[q]? = some d ∧
      reconcileRow t r =
        ({ docs := t.docs.set q (applyRecordPatch r d), nextId := t.nextId }, .ok .updated) ∧
      idKey (applyRecordPatch r d) = idKey d ∧
      writesName t r = (if r.name.isSome then some q else none) ∧
      (∀ k, r.examinerId = some k → firstIdxBy t.docs (fun x => x.examinerId == k) = some q) ∧
      (r.examinerId = none → q = 0))
    ∨ (∃ k n, r.examinerId = some k ∧ r.name = some n ∧ k ≠ "" ∧ n ≠ "" ∧
      firstIdxBy t.docs (fun x => x.examinerId == k) = none ∧
      reconcileRow t r =
        ({ docs := t.docs ++ [{ _id := t.nextId, examinerId := k, name := n }]
           nextId := t.nextId + 1 }, .ok .inserted) ∧
      writesName t r = some t.docs.length)
    ∨ (∃ m, reconcileRow t r = (t, .error m) ∧ writesName t r = none ∧
      (∀ k, r.examinerId = some k →
        firstIdxBy t.docs (fun x => x.examinerId == k) = none ∧
        (k = "" ∨ r.name = none ∨ r.name = some "")) ∧
      (r.examinerId = none → t.docs = [])) := by
  rcases hk : r.examinerId with _ | k
  · rcases hd : t.docs.head? with _ | d₀
    · have hdocs : t.docs = [] := List.head?_eq_none_iff.1 hd
      refine Or.inr (Or.inr ⟨examinerIdRequiredMsg, ?_, ?_, ?_, fun _ => hdocs⟩)
      · refine reconcileRow_fail_of_createError t r _ ?_ (createExaminer_error_keyNone t r hk)
        rw [hk, findOneByExaminerId]
        exact hd
      · rcases hn : r.name with _ | n
        · simp [writesName, hn]
        · simp [writesName, hn, hk, hdocs]
      · intro k hk'
        exact absurd hk' (by simp)
    · have hq0 : t.docs[0]? = some d₀ := getElem?_zero_of_head? _ _ hd
      refine Or.inl ⟨0, d₀, hq0, ?_, ?_, ?_, ?_, fun _ => rfl⟩
      · have hfind : findOneByExaminerId t r.examinerId = some d₀ := by
          rw [hk, findOneByExaminerId]
          exact hd
        have hne : t.docs.isEmpty = false := by
          cases hdocs : t.docs
          · rw [hdocs] at hd
            simp at hd
          · rfl
        calc reconcileRow t r = (updateExaminerById t d₀._id r, .ok .updated) := by
              simp [reconcileRow, hfind]
          _ = ({ docs := t.docs.set 0 (applyRecordPatch r d₀), nextId := t.nextId },
               .ok .updated) := by
              rw [updateById_eq_set t r 0 d₀ hWF.1 hq0]
      · simp [applyRecordPatch, idKey, hk]
      · rcases hn : r.name with _ | n
        · simp [writesName, hn]
        · have hne : t.docs.isEmpty = false := by
            cases hdocs : t.docs
            · rw [hdocs] at hd
              simp at hd
            · rfl
          simp [writesName, hn, hk, hne]
      · intro k hk'
        exact absurd hk' (by simp)
  · rcases hfi : firstIdxBy t.docs (fun x => x.examinerId == k) with _ | q
    · have hfind : findOneByExaminerId t r.examinerId = none := by
        rw [hk, findOneByExaminerId]
        exact firstIdxBy_none_spec _ _ hfi
      by_cases hkv : k = ""
      · subst hkv
        refine Or.inr (Or.inr ⟨examinerIdRequiredMsg,
          reconcileRow_fail_of_createError t r _ hfind (createExaminer_error_keyEmpty t r hk),
          ?_, ?_, ?_⟩)
        · rcases hn : r.name with _ | n
          · simp [writesName, hn]
          · simp [writesName, hn, hk, hfi]
        · intro k' hk'
          obtain rfl : "" = k' := Option.some.inj hk'
          exact ⟨hfi, Or.inl rfl⟩
        · intro h0
          exact absurd h0 (by simp)
      · rcases hn : r.name with _ | n
        · refine Or.inr (Or.inr ⟨nameRequiredMsg,
            reconcileRow_fail_of_createError t r _ hfind
              (createExaminer_error_nameNone t r k hk hkv hn),
            by simp [writesName, hn], ?_, ?_⟩)
          · intro k' hk'
            obtain rfl : k = k' := Option.some.inj hk'
            exact ⟨hfi, Or.inr (Or.inl rfl)⟩
          · intro h0
            exact absurd h0 (by simp)
        · by_cases hnv : n = ""
          · subst hnv
            refine Or.inr (Or.inr ⟨nameRequiredMsg,
              reconcileRow_fail_of_createError t r _ hfind
                (createExaminer_error_nameEmpty t r k hk hkv hn),
              by simp [writesName, hn, hk, hfi, hkv], ?_, ?_⟩)
            · intro k' hk'
              obtain rfl : k = k' := Option.some.inj hk'
              exact ⟨hfi, Or.inr (Or.inr rfl)⟩
            · intro h0
              exact absurd h0 (by simp)
          · refine Or.inr (Or.inl ⟨k, n, rfl, rfl, hkv, hnv, hfi, ?_, ?_⟩)
            · have hmiss : ∀ d ∈ t.docs, d.examinerId ≠ k := by
                intro d hd
                have := List.find?_eq_none.1 (firstIdxBy_none_spec _ _ hfi) d hd
                simpa using this
              have hr : r = ⟨some k, some n⟩ := by
                rcases r with ⟨a, b⟩
                simp only at hk hn
                rw [hk, hn]
              rw [hr]
              exact reconcileRow_insert t k n hkv hnv hmiss
            · simp [writesName, hn, hk, hfi, hkv, hnv]
    · rcases firstIdxBy_some_spec _ _ q hfi with ⟨d, hqd, hpd, hfindd⟩
      refine Or.inl ⟨q, d, hqd, ?_, ?_, ?_, ?_, ?_⟩
      · have hfind : findOneByExaminerId t r.examinerId = some d := by
          rw [hk, findOneByExaminerId]
          exact hfindd
        calc reconcileRow t r = (updateExaminerById t d._id r, .ok .updated) := by
              simp [reconcileRow, hfind]
          _ = ({ docs := t.docs.set q (applyRecordPatch r d), nextId := t.nextId },
               .ok .updated) := by
              rw [updateById_eq_set t r q d hWF.1 hqd]
      · have hdk : d.examinerId = k := by simpa using hpd
        simp [applyRecordPatch, idKey, hk, hdk]
      · rcases hn : r.name with _ | n
        · simp [writesName, hn]
        · simp [writesName, hn, hk, hfi]
      · intro k' hk'
        obtain rfl : k = k' := Option.some.inj hk'
        exact hfi
      · intro h0
        exact absurd h0 (by simp)

/-- One reconcile step preserves store well-formedness. -/
theorem reconcileRow_WF (t : ExaminerStore) (r : CSVRecord) (hWF : WFStore t) :
    WFStore (reconcileRow t r).1 := by
  rcases reconcileRow_cases t r hWF with
    ⟨q, d, hqd, heq, hid, _⟩ | ⟨k, n, _, _, _, _, _, heq, _⟩ | ⟨m, heq, _⟩
  · rw [heq]
    constructor
    · have hshape : (t.docs.set q (applyRecordPatch r d)).map idKey = storeShape t :=
        shape_set_of_idKey t q _ d hqd hid
      have : (t.docs.set q (applyRecordPatch r d)).map (fun x => x._id) =
          t.docs.map (fun x => x._id) := by
        have h1 : ((t.docs.set q (applyRecordPatch r d)).map idKey).map Prod.fst =
            (storeShape t).map Prod.fst := by rw [hshape]
        simpa [storeShape, idKey, Function.comp] using h1
      rw [this]
      exact hWF.1
    · intro x hx
      rcases List.mem_or_eq_of_mem_set hx with hx' | rfl
      · exact hWF.2 x hx'
      · have : d ∈ t.docs := by
          have hqlt : q < t.docs.length := by
            by_contra hlt
            rw [List.getElem?_eq_none (by omega)] at hqd
            exact absurd hqd (by simp)
          exact List.getElem?_mem hqd
        simpa [applyRecordPatch] using hWF.2 d this
  · rw [heq]
    constructor
    · simp only [List.map_append, List.map_cons, List.map_nil]
      rw [List.nodup_append]
      refine ⟨hWF.1, by simp, ?_⟩
      intro a ha
      simp only [List.mem_singleton]
      have : ∀ x ∈ t.docs, x._id < t.nextId := hWF.2
      rcases List.mem_map.1 ha with ⟨x, hx, rfl⟩
      have := hWF.2 x hx
      simp
      omega
    · intro x hx
      rcases List.mem_append.1 hx with hx' | hx'
      · have := hWF.2 x hx'
        simp only
        omega
      · rcases List.mem_singleton.1 hx' with rfl
        simp
  · rw [heq]
    exact hWF

/-- The whole loop preserves store well-formedness. -/
theorem runState_WF (F : List CSVRecord) (t : ExaminerStore) (hWF : WFStore t) :
    WFStore (runState t F) := by
  induction F generalizing t with
  | nil => exact hWF
  | cons r F ih => exact ih _ (reconcileRow_WF t r hWF)

/-- The loop only extends the shape: positions existing before keep their
ids and keys, and all appended positions carry nonempty keys. -/
theorem runState_shape_mono (F : List CSVRecord) (t : ExaminerStore) (hWF : WFStore t) :
    ∃ ext, storeShape (runState t F) = storeShape t ++ ext ∧ ∀ pr ∈ ext, pr.2 ≠ "" := by
  induction F generalizing t with
  | nil => exact ⟨[], by simp [runState_nil], by simp⟩
  | cons r F ih =>
    rcases ih (reconcileRow t r).1 (reconcileRow_WF t r hWF) with ⟨ext, hext, hkeys⟩
    rw [runState_cons]
    rcases reconcileRow_cases t r hWF with
      ⟨q, d, hqd, heq, hid, _⟩ | ⟨k, n, _, _, hkv, _, _, heq, _⟩ | ⟨m, heq, _⟩
    · refine ⟨ext, ?_, hkeys⟩
      rw [hext, heq]
      have : storeShape ({ docs := t.docs.set q (applyRecordPatch r d), nextId := t.nextId }
          : ExaminerStore) = storeShape t := shape_set_of_idKey t q _ d hqd hid
      rw [this]
    · refine ⟨(t.nextId, k) :: ext, ?_, ?_⟩
      · rw [hext, heq]
        simp [storeShape, idKey]
      · intro pr hpr
        rcases List.mem_cons.1 hpr with rfl | hpr'
        · exact hkv
        · exact hkeys pr hpr'
    · refine ⟨ext, ?_, hkeys⟩
      rw [hext, heq]

/-- Every position beyond the starting length that exists in the final
store was created, hence written, by some row of the run. -/
theorem writtenLater_of_created (F : List CSVRecord) (t : ExaminerStore) (p : Nat)
    (hWF : WFStore t) (hp : t.docs.length ≤ p)
    (hlt : p < (runState t F).docs.length) : writtenLater t F p = true := by
  induction F generalizing t with
  | nil =>
    rw [runState_nil] at hlt
    omega
  | cons r F ih =>
    rw [runState_cons] at hlt
    rw [writtenLater]
    rcases reconcileRow_cases t r hWF with
      ⟨q, d, hqd, heq, hid, _⟩ | ⟨k, n, _, _, _, _, _, heq, hwr⟩ | ⟨m, heq, _⟩
    · have hlen : (reconcileRow t r).1.docs.length = t.docs.length := by
        rw [heq]
        simp
      have := ih (reconcileRow t r).1 (reconcileRow_WF t r hWF) (by omega) hlt
      simp [this]
    · have hlen : (reconcileRow t r).1.docs.length = t.docs.length + 1 := by
        rw [heq]
        simp
      by_cases hpq : p = t.docs.length
      · subst hpq
        simp [hwr]
      · have := ih (reconcileRow t r).1 (reconcileRow_WF t r hWF) (by omega) hlt
        simp [this]
    · have hlen : (reconcileRow t r).1.docs.length = t.docs.length := by
        rw [heq]
      have := ih (reconcileRow t r).1 (reconcileRow_WF t r hWF) (by omega) hlt
      simp [this]

/-- One step's name frame: positions the row does not write keep their
stored name. -/
theorem reconcileRow_name_frame (t : ExaminerStore) (r : CSVRecord) (p : Nat)
    (hWF : WFStore t) (hnw : writesName t r ≠ some p) :
    (((reconcileRow t r).1).docs[p]?).map (fun d => d.name) =
      (t.docs[p]?).map (fun d => d.name) := by
  rcases reconcileRow_cases t r hWF with
    ⟨q, d, hqd, heq, hid, hwn, _⟩ | ⟨k, n, _, hn, _, _, _, heq, hwn⟩ | ⟨m, heq, _⟩
  · rw [heq]
    rcases hname : r.name with _ | n
    · simp only
      by_cases hpq : p = q
      · subst hpq
        have hqlt : p < t.docs.length := by
          by_contra hlt
          rw [List.getElem?_eq_none (by omega)] at hqd
          exact absurd hqd (by simp)
        rw [List.getElem?_set_eq_of_lt _ hqlt, hqd]
        simp [applyRecordPatch, hname]
      · rw [List.getElem?_set_ne (fun h => hpq h.symm)]
    · have hq : writesName t r = some q := by
        rw [hwn, hname]
        rfl
      have hpq : p ≠ q := fun h => hnw (h ▸ hq)
      simp only
      rw [List.getElem?_set_ne (fun h => hpq h.symm)]
  · have hpq : p ≠ t.docs.length := fun h => hnw (h ▸ hwn)
    rw [heq]
    simp only
    rw [List.getElem?_append]
    by_cases hplt : p < t.docs.length
    · rw [if_pos hplt]
    · rw [if_neg hplt]
      have h1 : t.docs[p]? = none := List.getElem?_eq_none (by omega)
      have h2 : ([{ _id := t.nextId, examinerId := k, name := n }] :
          List StoredExaminer)[p - t.docs.length]? = none :=
        List.getElem?_eq_none (by simp only [List.length_cons, List.length_nil]; omega)
      rw [h1, h2]
  · rw [heq]

/-- Run frame: a position no remaining row writes keeps its stored name
through the whole run. -/
theorem runState_name_frame (F : List CSVRecord) (t : ExaminerStore) (p : Nat)
    (hWF : WFStore t) (h : writtenLater t F p = false) :
    ((runState t F).docs[p]?).map (fun d => d.name) =
      (t.docs[p]?).map (fun d => d.name) := by
  induction F generalizing t with
  | nil => rw [runState_nil]
  | cons r F ih =>
    rw [writtenLater, Bool.or_eq_false_iff] at h
    rw [runState_cons]
    have h1 : writesName t r ≠ some p := by
      intro hw
      rw [hw] at h
      simp at h
    calc ((runState (reconcileRow t r).1 F).docs[p]?).map (fun d => d.name)
        = (((reconcileRow t r).1).docs[p]?).map (fun d => d.name) :=
          ih (reconcileRow t r).1 (reconcileRow_WF t r hWF) h.2
      _ = (t.docs[p]?).map (fun d => d.name) := reconcileRow_name_frame t r p hWF h1

theorem lt_length_of_getElem? {α : Type} (l : List α) (j : Nat) (a : α)
    (h : l[j]? = some a) : j < l.length := by
  by_contra hlt
  rw [List.getElem?_eq_none (by omega)] at h
  exact absurd h (by simp)

theorem head?_of_getElem?_zero {α : Type} (l : List α) (a : α)
    (h : l[0]? = some a) : l.head? = some a := by
  cases l with
  | nil => simp at h
  | cons b l => simpa using h

theorem shape_getElem (u : ExaminerStore) (j : Nat) :
    (storeShape u)[j]? = (u.docs[j]?).map idKey := by
  unfold storeShape
  rw [List.getElem?_map]

theorem shape_length (u : ExaminerStore) :
    (storeShape u).length = u.docs.length := by
  unfold storeShape
  rw [List.length_map]

/-- `firstIdxBy` over the documents equals `firstKeyIdx` over the
shape. -/
theorem firstIdxBy_shape (u : ExaminerStore) (k : String) :
    firstIdxBy u.docs (fun x => x.examinerId == k) = firstKeyIdx (storeShape u) k :=
  firstIdxBy_eq_firstKeyIdx u.docs k

theorem patch_idKey_of_some (r : CSVRecord) (k : String) (e : StoredExaminer)
    (hk : r.examinerId = some k) (he : e.examinerId = k) :
    idKey (applyRecordPatch r e) = idKey e := by
  simp [applyRecordPatch, idKey, hk, he]

theorem patch_idKey_of_none (r : CSVRecord) (e : StoredExaminer)
    (hk : r.examinerId = none) :
    idKey (applyRecordPatch r e) = idKey e := by
  simp [applyRecordPatch, idKey, hk]

theorem patch_name_some (r : CSVRecord) (n : String) (e : StoredExaminer)
    (hn : r.name = some n) : (applyRecordPatch r e).name = n := by
  simp [applyRecordPatch, hn]

theorem patch_name_none (r : CSVRecord) (e : StoredExaminer)
    (hn : r.name = none) : (applyRecordPatch r e).name = e.name := by
  simp [applyRecordPatch, hn]

/-- u-side derivation: a key hit at position `q` makes the step an
in-place update of position `q`. -/
theorem reconcileRow_found_set (u : ExaminerStore) (r : CSVRecord) (k : String) (q : Nat)
    (hWFu : WFStore u) (hk : r.examinerId = some k)
    (hfi : firstIdxBy u.docs (fun x => x.examinerId == k) = some q) :
    ∃ e, u.docs[q]? = some e ∧ e.examinerId = k ∧
      reconcileRow u r =
        ({ docs := u.docs.set q (applyRecordPatch r e), nextId := u.nextId }, .ok .updated) := by
  rcases firstIdxBy_some_spec _ _ q hfi with ⟨e, hqe, hpe, hfind⟩
  have hfindOne : findOneByExaminerId u r.examinerId = some e := by
    rw [hk, findOneByExaminerId]
    exact hfind
  refine ⟨e, hqe, by simpa using hpe, ?_⟩
  calc reconcileRow u r = (updateExaminerById u e._id r, .ok .updated) := by
        simp [reconcileRow, hfindOne]
    _ = _ := by rw [updateById_eq_set u r q e hWFu.1 hqe]

/-- u-side derivation: an `undefined` key over a nonempty store updates
position 0 (the first document). -/
theorem reconcileRow_head_set (u : ExaminerStore) (r : CSVRecord) (e₀ : StoredExaminer)
    (hWFu : WFStore u) (hk : r.examinerId = none) (h0 : u.docs[0]? = some e₀) :
    reconcileRow u r =
      ({ docs := u.docs.set 0 (applyRecordPatch r e₀), nextId := u.nextId }, .ok .updated) := by
  have hfindOne : findOneByExaminerId u r.examinerId = some e₀ := by
    rw [hk, findOneByExaminerId]
    exact head?_of_getElem?_zero _ _ h0
  calc reconcileRow u r = (updateExaminerById u e₀._id r, .ok .updated) := by
        simp [reconcileRow, hfindOne]
    _ = _ := by rw [updateById_eq_set u r 0 e₀ hWFu.1 h0]

theorem reconcileRow_fail_keyNone_nil (u : ExaminerStore) (r : CSVRecord)
    (hk : r.examinerId = none) (hnil : u.docs = []) :
    reconcileRow u r = (u, .error examinerIdRequiredMsg) := by
  refine reconcileRow_fail_of_createError u r _ ?_ (createExaminer_error_keyNone u r hk)
  simp [findOneByExaminerId, hk, hnil]

/-- u-side derivation: a key miss in `u` makes the step fail exactly when
the row is invalid, leaving `u` unchanged. -/
theorem reconcileRow_fail_keyMiss (u : ExaminerStore) (r : CSVRecord) (k : String)
    (hk : r.examinerId = some k)
    (hfi : firstIdxBy u.docs (fun x => x.examinerId == k) = none)
    (hbad : k = "" ∨ r.name = none ∨ r.name = some "") :
    ∃ m, reconcileRow u r = (u, .error m) := by
  have hfindOne : findOneByExaminerId u r.examinerId = none := by
    rw [hk, findOneByExaminerId]
    exact firstIdxBy_none_spec _ _ hfi
  rcases hbad with hkv | hn | hn
  · subst hkv
    exact ⟨examinerIdRequiredMsg,
      reconcileRow_fail_of_createError u r _ hfindOne (createExaminer_error_keyEmpty u r hk)⟩
  · by_cases hkv : k = ""
    · subst hkv
      exact ⟨examinerIdRequiredMsg,
        reconcileRow_fail_of_createError u r _ hfindOne (createExaminer_error_keyEmpty u r hk)⟩
    · exact ⟨nameRequiredMsg, reconcileRow_fail_of_createError u r _ hfindOne
        (createExaminer_error_nameNone u r k hk hkv hn)⟩
  · by_cases hkv : k = ""
    · subst hkv
      exact ⟨examinerIdRequiredMsg,
        reconcileRow_fail_of_createError u r _ hfindOne (createExaminer_error_keyEmpty u r hk)⟩
    · exact ⟨nameRequiredMsg, reconcileRow_fail_of_createError u r _ hfindOne
        (createExaminer_error_nameEmpty u r k hk hkv hn)⟩

/-- The heart of the idempotence proof.  Suppose the second run has
reached store `u` while the first run, at the same row index, had store
`t`, where `u`'s shape extends the shape the first run will have after
this row by documents with nonempty keys.  Then the second run's step on
`u` keeps `u`'s shape and fresh-id counter, never takes the insert path,
writes the same name as the first run at the position the first run
writes, and leaves every other position below the first run's new length
untouched. -/
theorem step_pair (t u : ExaminerStore) (r : CSVRecord) (ext : List (Nat × String))
    (hWFt : WFStore t) (hWFu : WFStore u)
    (hshape : storeShape u = storeShape (reconcileRow t r).1 ++ ext)
    (hext : ∀ pr ∈ ext, pr.2 ≠ "") :
    storeShape (reconcileRow u r).1 = storeShape u
    ∧ ((reconcileRow u r).1).nextId = u.nextId
    ∧ (reconcileRow u r).2 ≠ .ok .inserted
    ∧ (∀ p, writesName t r = some p →
        (((reconcileRow u r).1).docs[p]?).map (fun d => d.name) =
        (((reconcileRow t r).1).docs[p]?).map (fun d => d.name))
    ∧ (∀ p, writesName t r ≠ some p → p < ((reconcileRow t r).1).docs.length →
        (((reconcileRow u r).1).docs[p]?).map (fun d => d.name) =
        (u.docs[p]?).map (fun d => d.name)) := by
  rcases reconcileRow_cases t r hWFt with
    ⟨q, d, hqd, heq, hid, hwn, hfirst, hknone⟩ |
    ⟨k, n, hk, hn, hkv, hnv, hfit, heq, hwn⟩ |
    ⟨m, heq, hwn, hksome, hknone⟩
  · -- first run updates position q in place
    have ht1docs : (reconcileRow t r).1.docs = t.docs.set q (applyRecordPatch r d) := by
      rw [heq]
    have ht1shape : storeShape (reconcileRow t r).1 = storeShape t := by
      unfold storeShape
      rw [ht1docs]
      exact shape_set_of_idKey t q _ d hqd hid
    have hshape' : storeShape u = storeShape t ++ ext := by
      rw [hshape, ht1shape]
    have hqlt : q < t.docs.length := lt_length_of_getElem? _ _ _ hqd
    rcases hkk : r.examinerId with _ | k
    · -- undefined key: both runs update the head
      obtain rfl : q = 0 := hknone hkk
      have hulen : 0 < u.docs.length := by
        have := congrArg List.length hshape'
        rw [List.length_append, shape_length, shape_length] at this
        omega
      obtain ⟨e₀, h0⟩ : ∃ e₀, u.docs[0]? = some e₀ := by
        rcases hu : u.docs with _ | ⟨e₀, tl⟩
        · rw [hu] at hulen
          simp at hulen
        · exact ⟨e₀, by simp⟩
      have hequ := reconcileRow_head_set u r e₀ hWFu hkk h0
      have hu1docs : (reconcileRow u r).1.docs = u.docs.set 0 (applyRecordPatch r e₀) := by
        rw [hequ]
      refine ⟨?_, by rw [hequ], by rw [hequ]; simp, ?_, ?_⟩
      · unfold storeShape
        rw [hu1docs]
        exact shape_set_of_idKey u 0 _ e₀ h0 (patch_idKey_of_none r e₀ hkk)
      · intro p hp
        rcases hname : r.name with _ | n
        · rw [hwn, hname] at hp
          simp at hp
        · rw [hwn, hname] at hp
          simp only [Option.isSome_some, if_true] at hp
          obtain rfl : (0 : Nat) = p := Option.some.inj hp
          rw [hu1docs, ht1docs,
            List.getElem?_set_eq_of_lt _ (lt_length_of_getElem? _ _ _ h0),
            List.getElem?_set_eq_of_lt _ hqlt]
          simp [patch_name_some r n _ hname]
      · intro p hp hplen
        rcases hname : r.name with _ | n
        · rw [hu1docs]
          by_cases hp0 : p = 0
          · subst hp0
            rw [List.getElem?_set_eq_of_lt _ (lt_length_of_getElem? _ _ _ h0), h0]
            simp [patch_name_none r e₀ hname]
          · rw [List.getElem?_set_ne (fun h => hp0 h.symm)]
        · rw [hwn, hname] at hp
          simp only [Option.isSome_some, if_true] at hp
          have hp0 : p ≠ 0 := fun h => hp (by rw [h])
          rw [hu1docs, List.getElem?_set_ne (fun h => hp0 h.symm)]
    · -- present key: both runs update the first hit of the key
      have hfit : firstIdxBy t.docs (fun x => x.examinerId == k) = some q := hfirst k hkk
      have hfiu : firstIdxBy u.docs (fun x => x.examinerId == k) = some q := by
        rw [firstIdxBy_shape, hshape']
        apply firstKeyIdx_append_some
        rw [← firstIdxBy_shape]
        exact hfit
      rcases reconcileRow_found_set u r k q hWFu hkk hfiu with ⟨e, hqe, hek, hequ⟩
      have hu1docs : (reconcileRow u r).1.docs = u.docs.set q (applyRecordPatch r e) := by
        rw [hequ]
      refine ⟨?_, by rw [hequ], by rw [hequ]; simp, ?_, ?_⟩
      · unfold storeShape
        rw [hu1docs]
        exact shape_set_of_idKey u q _ e hqe (patch_idKey_of_some r k e hkk hek)
      · intro p hp
        rcases hname : r.name with _ | n
        · rw [hwn, hname] at hp
          simp at hp
        · rw [hwn, hname] at hp
          simp only [Option.isSome_some, if_true] at hp
          obtain rfl : q = p := Option.some.inj hp
          rw [hu1docs, ht1docs,
            List.getElem?_set_eq_of_lt _ (lt_length_of_getElem? _ _ _ hqe),
            List.getElem?_set_eq_of_lt _ hqlt]
          simp [patch_name_some r n _ hname]
      · intro p hp hplen
        rcases hname : r.name with _ | n
        · rw [hu1docs]
          by_cases hpq : p = q
          · subst hpq
            rw [List.getElem?_set_eq_of_lt _ (lt_length_of_getElem? _ _ _ hqe), hqe]
            simp [patch_name_none r e hname]
          · rw [List.getElem?_set_ne (fun h => hpq h.symm)]
        · rw [hwn, hname] at hp
          simp only [Option.isSome_some, if_true] at hp
          have hpq : p ≠ q := fun h => hp (by rw [h])
          rw [hu1docs, List.getElem?_set_ne (fun h => hpq h.symm)]
  · -- first run inserts a fresh document; second run updates the
    -- document the first run created (it sits at position `t.docs.length`)
    have ht1docs : (reconcileRow t r).1.docs =
        t.docs ++ [{ _id := t.nextId, examinerId := k, name := n }] := by
      rw [heq]
    have ht1shape : storeShape (reconcileRow t r).1 =
        storeShape t ++ [(t.nextId, k)] := by
      unfold storeShape
      rw [ht1docs]
      simp [idKey]
    have hshape' : storeShape u = storeShape t ++ ((t.nextId, k) :: ext) := by
      rw [hshape, ht1shape, List.append_assoc]
      rfl
    have hfiu : firstIdxBy u.docs (fun x => x.examinerId == k) = some t.docs.length := by
      rw [firstIdxBy_shape, hshape']
      rw [firstKeyIdx_append_none _ _ _ (by rw [← firstIdxBy_shape]; exact hfit)]
      have hcons : firstKeyIdx ((t.nextId, k) :: ext) k = some 0 := by
        simp [firstKeyIdx]
      rw [hcons]
      simp [shape_length]
    rcases reconcileRow_found_set u r k t.docs.length hWFu hk hfiu with ⟨e, hqe, hek, hequ⟩
    have hu1docs : (reconcileRow u r).1.docs =
        u.docs.set t.docs.length (applyRecordPatch r e) := by
      rw [hequ]
    refine ⟨?_, by rw [hequ], by rw [hequ]; simp, ?_, ?_⟩
    · unfold storeShape
      rw [hu1docs]
      exact shape_set_of_idKey u _ _ e hqe (patch_idKey_of_some r k e hk hek)
    · intro p hp
      rw [hwn] at hp
      obtain rfl : t.docs.length = p := Option.some.inj hp
      rw [hu1docs, ht1docs,
        List.getElem?_set_eq_of_lt _ (lt_length_of_getElem? _ _ _ hqe)]
      rw [List.getElem?_append]
      rw [if_neg (by omega)]
      simp [patch_name_some r n _ hn]
    · intro p hp hplen
      rw [hwn] at hp
      have hpq : p ≠ t.docs.length := fun h => hp (by rw [h])
      rw [hu1docs, List.getElem?_set_ne (fun h => hpq h.symm)]
  · -- first run fails on this row; the second run either fails the same
    -- way or garbage-writes a position at or beyond the first run's length
    have ht1 : (reconcileRow t r).1 = t := by
      rw [heq]
    have hshape' : storeShape u = storeShape t ++ ext := by
      rw [hshape, ht1]
    rcases hkk : r.examinerId with _ | k
    · -- undefined key and the first-run store is empty
      have htnil : t.docs = [] := hknone hkk
      rcases hu : u.docs with _ | ⟨e₀, tl⟩
      · have hequ := reconcileRow_fail_keyNone_nil u r hkk hu
        refine ⟨by rw [hequ], by rw [hequ], by rw [hequ]; simp, ?_, ?_⟩
        · intro p hp
          rw [hwn] at hp
          exact absurd hp (by simp)
        · intro p hp hplen
          simp [hequ, hu]
      · have h0 : u.docs[0]? = some e₀ := by
          rw [hu]
          simp
        have hequ := reconcileRow_head_set u r e₀ hWFu hkk h0
        have hu1docs : (reconcileRow u r).1.docs = u.docs.set 0 (applyRecordPatch r e₀) := by
          rw [hequ]
        refine ⟨?_, by rw [hequ], by rw [hequ]; simp, ?_, ?_⟩
        · unfold storeShape
          rw [hu1docs]
          exact shape_set_of_idKey u 0 _ e₀ h0 (patch_idKey_of_none r e₀ hkk)
        · intro p hp
          rw [hwn] at hp
          exact absurd hp (by simp)
        · intro p hp hplen
          rw [ht1, htnil] at hplen
          simp at hplen
    · -- present key, first run failed: validation failure
      rcases hksome k hkk with ⟨hfit, hbad⟩
      by_cases hkv : k = ""
      · -- empty key: the extension carries no empty keys, so the second
        -- run also misses and fails the same validation
        subst hkv
        have hfiu : firstIdxBy u.docs (fun x => x.examinerId == "") = none := by
          rw [firstIdxBy_shape, hshape']
          rw [firstKeyIdx_append_none _ _ _ (by rw [← firstIdxBy_shape]; exact hfit)]
          rw [firstKeyIdx_none_of_keys_ne ext "" hext]
          rfl
        rcases reconcileRow_fail_keyMiss u r "" hkk hfiu (Or.inl rfl) with ⟨m', hequ⟩
        refine ⟨by rw [hequ], by rw [hequ], by rw [hequ]; simp, ?_, ?_⟩
        · intro p hp
          rw [hwn] at hp
          exact absurd hp (by simp)
        · intro p hp hplen
          rw [hequ]
      · rcases hfe : firstKeyIdx ext k with _ | j
        · -- no such key anywhere yet: the second run fails identically
          have hfiu : firstIdxBy u.docs (fun x => x.examinerId == k) = none := by
            rw [firstIdxBy_shape, hshape']
            rw [firstKeyIdx_append_none _ _ _ (by rw [← firstIdxBy_shape]; exact hfit)]
            rw [hfe]
            rfl
          rcases reconcileRow_fail_keyMiss u r k hkk hfiu hbad with ⟨m', hequ⟩
          refine ⟨by rw [hequ], by rw [hequ], by rw [hequ]; simp, ?_, ?_⟩
          · intro p hp
            rw [hwn] at hp
            exact absurd hp (by simp)
          · intro p hp hplen
            rw [hequ]
        · -- the key exists among later-created documents: the second run
          -- updates that position, which lies at or beyond the first
          -- run's current length
          have hfiu : firstIdxBy u.docs (fun x => x.examinerId == k) =
              some (j + (storeShape t).length) := by
            rw [firstIdxBy_shape, hshape']
            rw [firstKeyIdx_append_none _ _ _ (by rw [← firstIdxBy_shape]; exact hfit)]
            rw [hfe]
            rfl
          rcases reconcileRow_found_set u r k _ hWFu hkk hfiu with ⟨e, hqe, hek, hequ⟩
          have hu1docs : (reconcileRow u r).1.docs =
              u.docs.set (j + (storeShape t).length) (applyRecordPatch r e) := by
            rw [hequ]
          refine ⟨?_, by rw [hequ], by rw [hequ]; simp, ?_, ?_⟩
          · unfold storeShape
            rw [hu1docs]
            exact shape_set_of_idKey u _ _ e hqe (patch_idKey_of_some r k e hkk hek)
          · intro p hp
            rw [hwn] at hp
            exact absurd hp (by simp)
          · intro p hp hplen
            rw [ht1] at hplen
            have hpq : p ≠ j + (storeShape t).length := by
              rw [shape_length]
              omega
            rw [hu1docs, List.getElem?_set_ne (fun h => hpq h.symm)]

/-- Characterization of the second run.  If `u`'s shape and counter are
what the first run (from `t`, over `R`) will produce, then running `R`
from `u` keeps shape and counter, never takes the insert path, and at
every position ends with the first run's final name where the first run
writes, and with `u`'s existing name elsewhere. -/
theorem second_run_char (R : List CSVRecord) (t u : ExaminerStore)
    (hWFt : WFStore t) (hWFu : WFStore u)
    (hshape : storeShape u = storeShape (runState t R))
    (hnext : u.nextId = (runState t R).nextId) :
    storeShape (runState u R) = storeShape u
    ∧ (runState u R).nextId = u.nextId
    ∧ (∀ pr ∈ (processAnnotated u R).2, pr.2 ≠ Except.ok RowPath.inserted)
    ∧ ∀ p, ((runState u R).docs[p]?).map (fun d => d.name) =
        if writtenLater t R p then ((runState t R).docs[p]?).map (fun d => d.name)
        else (u.docs[p]?).map (fun d => d.name) := by
  induction R generalizing t u with
  | nil =>
    refine ⟨rfl, rfl, ?_, ?_⟩
    · intro pr hpr
      simp [processAnnotated] at hpr
    · intro p
      simp [runState_nil, writtenLater]
  | cons r R ih =>
    have hWFt1 : WFStore (reconcileRow t r).1 := reconcileRow_WF t r hWFt
    rcases runState_shape_mono R (reconcileRow t r).1 hWFt1 with ⟨ext, hm, hkeys⟩
    have hshape' : storeShape u = storeShape (reconcileRow t r).1 ++ ext := by
      rw [hshape, runState_cons, hm]
    rcases step_pair t u r ext hWFt hWFu hshape' hkeys with ⟨hs1, hn1, hno, hw1, hw2⟩
    have hWFu1 : WFStore (reconcileRow u r).1 := reconcileRow_WF u r hWFu
    have hshape1 : storeShape (reconcileRow u r).1 =
        storeShape (runState (reconcileRow t r).1 R) := by
      rw [hs1, hshape, runState_cons]
    have hnext1 : (reconcileRow u r).1.nextId =
        (runState (reconcileRow t r).1 R).nextId := by
      rw [hn1, hnext, runState_cons]
    rcases ih (reconcileRow t r).1 (reconcileRow u r).1 hWFt1 hWFu1 hshape1 hnext1 with
      ⟨ih1, ih2, ih3, ih4⟩
    refine ⟨?_, ?_, ?_, ?_⟩
    · rw [runState_cons, ih1, hs1]
    · rw [runState_cons, ih2, hn1]
    · intro pr hpr
      rw [processAnnotated_cons] at hpr
      rcases List.mem_cons.1 hpr with rfl | hpr'
      · exact hno
      · exact ih3 pr hpr'
    · intro p
      have hwl : writtenLater t (r :: R) p =
          ((writesName t r == some p) || writtenLater (reconcileRow t r).1 R p) := rfl
      rw [runState_cons u r R, ih4 p, runState_cons t r R, hwl]
      by_cases h2 : writtenLater (reconcileRow t r).1 R p = true
      · rw [if_pos h2, if_pos (by simp [h2])]
      · have h2f : writtenLater (reconcileRow t r).1 R p = false := by
          simpa using h2
        by_cases hwp : writesName t r = some p
        · rw [if_neg (by simp [h2f]), if_pos (by simp [hwp])]
          have e1 := hw1 p hwp
          have e2 := runState_name_frame R (reconcileRow t r).1 p hWFt1 h2f
          rw [e2]
          exact e1
        · rw [if_neg (by simp [h2f]), if_neg (by simp [h2f, hwp])]
          by_cases hplen : p < (reconcileRow t r).1.docs.length
          · exact hw2 p hwp hplen
          · by_cases hplen2 : p < (runState (reconcileRow t r).1 R).docs.length
            · exact absurd
                (writtenLater_of_created R (reconcileRow t r).1 p hWFt1 (by omega) hplen2)
                (by simp [h2f])
            · have hu1len : (reconcileRow u r).1.docs.length = u.docs.length := by
                have := congrArg List.length hs1
                rwa [shape_length, shape_length] at this
              have hulen : u.docs.length =
                  (runState (reconcileRow t r).1 R).docs.length := by
                have := congrArg List.length hshape1
                rw [shape_length, shape_length] at this
                omega
              rw [List.getElem?_eq_none (by omega), List.getElem?_eq_none (by omega)]

/-- State idempotence of the reconcile loop: re-running the same parsed
row list from the store the first run produced leaves that store exactly
as it was. -/
theorem runState_idempotent (s : ExaminerStore) (F : List CSVRecord) (hWF : WFStore s) :
    runState (runState s F) F = runState s F := by
  have hWFT : WFStore (runState s F) := runState_WF F s hWF
  rcases second_run_char F s (runState s F) hWF hWFT rfl rfl with ⟨h1, h2, _, h4⟩
  have hdocs : (runState (runState s F) F).docs = (runState s F).docs := by
    apply List.ext_getElem?
    intro p
    have hks := congrArg (fun L => L[p]?) h1
    simp only at hks
    rw [shape_getElem, shape_getElem] at hks
    have hns' : ((runState (runState s F) F).docs[p]?).map (fun d => d.name) =
        ((runState s F).docs[p]?).map (fun d => d.name) := by
      rw [h4 p]
      by_cases hw : writtenLater s F p = true
      · rw [if_pos hw]
      · rw [if_neg hw]
    rcases ha : (runState (runState s F) F).docs[p]? with _ | a <;>
      rcases hb : (runState s F).docs[p]? with _ | b
    · rfl
    · rw [ha, hb] at hks
      simp at hks
    · rw [ha, hb] at hks
      simp at hks
    · rw [ha, hb] at hks
      rw [ha, hb] at hns'
      have h5 : idKey a = idKey b := by simpa using hks
      have h6 : a.name = b.name := by simpa using hns'
      rcases a with ⟨ai, ak, an⟩
      rcases b with ⟨bi, bk, bn⟩
      simp [idKey] at h5 h6
      simp [h5.1, h5.2, h6]
  calc runState (runState s F) F
      = { docs := (runState (runState s F) F).docs
          nextId := (runState (runState s F) F).nextId } := rfl
    _ = { docs := (runState s F).docs, nextId := (runState s F).nextId } := by
        rw [hdocs, h2]
    _ = runState s F := rfl

/-- Claim C1 as amended: re-running the same parsed file leaves the
final stored participant state exactly as after the first run, every
success of the second run takes the update path (never the insert
path), and totalProcessed (the number of parsed rows, which both runs
report) equals successCount + failureCount in each run; the
successCount/failureCount split itself may differ between the runs (see
the counterexample). -/
theorem claim_C1 (s : ExaminerStore) (F : List CSVRecord) (hWF : WFStore s) :
    (processRecords (processRecords s F).1 F).1 = (processRecords s F).1
    ∧ (∀ pr ∈ (processAnnotated (processRecords s F).1 F).2,
        pr.2 ≠ Except.ok RowPath.inserted)
    ∧ (processRecords s F).2.success.length + (processRecords s F).2.failed.length = F.length
    ∧ (processRecords (processRecords s F).1 F).2.success.length
        + (processRecords (processRecords s F).1 F).2.failed.length = F.length := by
  have h0 : (processRecords s F).1 = runState s F := processRecords_runState s F
  refine ⟨?_, ?_, processRecords_counts s F, processRecords_counts _ F⟩
  · rw [h0, processRecords_runState]
    exact runState_idempotent s F hWF
  · rw [h0]
    have hWFT : WFStore (runState s F) := runState_WF F s hWF
    exact (second_run_char F s (runState s F) hWF hWFT rfl rfl).2.2.1

/-- Witness for C1 on a concrete store and file (the same file the
counterexample uses). -/
theorem claim_C1_witness :
    (processRecords
        (processRecords ⟨[], 0⟩ [⟨some "E1", some ""⟩, ⟨some "E1", some "Ann"⟩]).1
        [⟨some "E1", some ""⟩, ⟨some "E1", some "Ann"⟩]).1
      = (processRecords ⟨[], 0⟩ [⟨some "E1", some ""⟩, ⟨some "E1", some "Ann"⟩]).1
    ∧ (∀ pr ∈ (processAnnotated
          (processRecords ⟨[], 0⟩ [⟨some "E1", some ""⟩, ⟨some "E1", some "Ann"⟩]).1
          [⟨some "E1", some ""⟩, ⟨some "E1", some "Ann"⟩]).2,
        pr.2 ≠ Except.ok RowPath.inserted)
    ∧ (processRecords ⟨[], 0⟩ [⟨some "E1", some ""⟩, ⟨some "E1", some "Ann"⟩]).2.success.length
        + (processRecords ⟨[], 0⟩
            [⟨some "E1", some ""⟩, ⟨some "E1", some "Ann"⟩]).2.failed.length
      = ([⟨some "E1", some ""⟩, ⟨some "E1", some "Ann"⟩] : List CSVRecord).length
    ∧ (processRecords
          (processRecords ⟨[], 0⟩ [⟨some "E1", some ""⟩, ⟨some "E1", some "Ann"⟩]).1
          [⟨some "E1", some ""⟩, ⟨some "E1", some "Ann"⟩]).2.success.length
        + (processRecords
            (processRecords ⟨[], 0⟩ [⟨some "E1", some ""⟩, ⟨some "E1", some "Ann"⟩]).1
            [⟨some "E1", some ""⟩, ⟨some "E1", some "Ann"⟩]).2.failed.length
      = ([⟨some "E1", some ""⟩, ⟨some "E1", some "Ann"⟩] : List CSVRecord).length :=
  claim_C1 ⟨[], 0⟩ [⟨some "E1", some ""⟩, ⟨some "E1", some "Ann"⟩] (by decide)

/-- Counterexample to C1 as stated: on the file with rows (E1, "") and
(E1, Ann) against an empty store, the first run reports successCount 1
and failureCount 1 (the empty name fails `create`-side validation), but
the second run reports successCount 2 and failureCount 0 (the row now
takes the update path, which runs no validators) — so the report's
successCount and failureCount are NOT equal across the two runs, even
though the final stored state is identical. -/
theorem claim_C1_counterexample :
    (processRecords ⟨[], 0⟩ [⟨some "E1", some ""⟩, ⟨some "E1", some "Ann"⟩]).2.success.length = 1
    ∧ (processRecords ⟨[], 0⟩ [⟨some "E1", some ""⟩, ⟨some "E1", some "Ann"⟩]).2.failed.length = 1
    ∧ (processRecords
        (processRecords ⟨[], 0⟩ [⟨some "E1", some ""⟩, ⟨some "E1", some "Ann"⟩]).1
        [⟨some "E1", some ""⟩, ⟨some "E1", some "Ann"⟩]).2.success.length = 2
    ∧ (processRecords
        (processRecords ⟨[], 0⟩ [⟨some "E1", some ""⟩, ⟨some "E1", some "Ann"⟩]).1
        [⟨some "E1", some ""⟩, ⟨some "E1", some "Ann"⟩]).2.failed.length = 0
    ∧ ¬(1 : Nat) = 2 := by
  decide
